import Mathlib

set_option linter.unusedVariables false
set_option linter.unusedTactic false
set_option maxHeartbeats 1000000

/-!
Verification development for the search core of the OpenTal/Rodent chess
engine (src/src/search.cpp).  The pure parts of the source (the LMR table
of `cEngine::InitSearch`, `POS::DrawScore`, the aspiration windower
`cEngine::Widen`) are embedded directly.  The alpha-beta kernel frame
`cEngine::Search` is embedded as a single-frame state machine over an
oracle environment: every call the frame makes to the outside world
(position queries, transposition table, quiescence, recursive `Search`
calls, the shared abort flag) is answered by an environment function
indexed by a running call counter, so that every real execution of one
frame corresponds to some environment.  Mutation of the position via
`DoMove`/`UndoMove`/`DoNull`/`UndoNull` is modelled as a history stack of
applied operations (the external make/unmake contract: undoing an
operation pops exactly what doing it pushed), and every externally
visible side effect (position ops, transposition stores, history-table
updates, pv-buffer writes, abort polls) is recorded in an event trace.
-/

namespace OpenTal

/-- Modelled from the spec: numeric constants that the source takes from the
missing header `rodent.h` (spec section 3, Data Model): `MAX_PLY` is the
recursion bound, `INF` the infinite window bound, `MATE` the mate score and
`MAX_EVAL` the threshold above which score magnitudes encode mate distances
(`MAX_EVAL < MATE ≤ INF`).  None of the theorems below depends on the exact
values, only on these relations. -/
def MAX_PLY : Int := 64

/-- Modelled from the spec: maximal number of moves in a position, from the
missing header `rodent.h` (array bound of `msLmrSize` and `mv_played`). -/
def MAX_MOVES : Int := 256

/-- Modelled from the spec: infinite window bound, from the missing header. -/
def INF : Int := 32767

/-- Modelled from the spec: mate score, from the missing header. -/
def MATE : Int := 32000

/-- Modelled from the spec: largest static-evaluation magnitude; scores above
it encode mate distances.  From the missing header. -/
def MAX_EVAL : Int := 29999

/-- `const int cEngine::mscSnpDepth = 3;` — max depth for static null move. -/
def mscSnpDepth : Int := 3

/-- `const int cEngine::mscRazorDepth = 4;` — max depth for razoring. -/
def mscRazorDepth : Int := 4

/-- `const int cEngine::mscFutDepth = 6;` — max depth for futility pruning. -/
def mscFutDepth : Int := 6

/-- `const int cEngine::mscSelectiveDepth = Max(Max(mscSnpDepth, mscRazorDepth), mscFutDepth);` -/
def mscSelectiveDepth : Int := max (max mscSnpDepth mscRazorDepth) mscFutDepth

/-- `const int cEngine::mscRazorMargin[5] = { 0, 300, 360, 420, 480 };`
as a function of the (in-range) index. -/
def mscRazorMargin (d : Int) : Int :=
  if d = 1 then 300 else if d = 2 then 360 else if d = 3 then 420
  else if d = 4 then 480 else 0

/-- `const int cEngine::mscFutMargin[7] = { 0, 100, 160, 220, 280, 340, 400 };`
as a function of the (in-range) index. -/
def mscFutMargin (d : Int) : Int :=
  if d = 1 then 100 else if d = 2 then 160 else if d = 3 then 220
  else if d = 4 then 280 else if d = 5 then 340 else if d = 6 then 400 else 0

/-! ## The late-move-reduction table (`cEngine::InitSearch`, lines 64-83)

The C code computes, for `dp` in `[0, MAX_PLY)` and `mv` in `[0, MAX_MOVES)`:

    int r = 0;
    if (dp != 0 && mv != 0)
        r = (int)(log((double)dp) * log((double)Min(mv, 63)) / 2.0);
    msLmrSize[0][dp][mv] = r;
    msLmrSize[1][dp][mv] = r - 1;
    if (msLmrSize[0][dp][mv] > dp - 1) msLmrSize[0][dp][mv] = dp - 1;
    if (msLmrSize[1][dp][mv] > dp - 1) msLmrSize[1][dp][mv] = dp - 1;

Double-precision `log` is modelled as the real logarithm.  In the branch
where the formula is evaluated both factors are logarithms of naturals that
are at least 1, hence nonnegative, so the C truncation-toward-zero of the
`(int)` cast agrees with the floor. -/

/-- The raw reduction `r` of `InitSearch` before storing and clamping. -/
noncomputable def lmrR (dp mv : ℕ) : Int :=
  if dp ≠ 0 ∧ mv ≠ 0 then ⌊Real.log dp * Real.log (min mv 63) / 2⌋ else 0

/-- The LMR table `msLmrSize[k][dp][mv]` after `InitSearch`:
index `k = 0` is the zero-window value `r`, `k = 1` the PV value `r - 1`,
each clamped from above to `dp - 1`. -/
noncomputable def msLmrSize (k : Fin 2) (dp mv : ℕ) : Int :=
  let r := lmrR dp mv
  let v := if k = 0 then r else r - 1
  if v > (dp : Int) - 1 then (dp : Int) - 1 else v

/-! ## Oracle environment and event traces for the kernel frame

One frame of `cEngine::Search` interacts with the outside world only
through calls: position queries, `Trans` probes and stores, `QuiesceChecks`,
recursive `Search` calls, and reads of `Glob.abort_search`.  Each such call
is answered by an environment function at the current value of a running
call counter, which the call then advances; an arbitrary environment can
therefore reproduce any sequence of answers a real execution sees.
Functions of the move encoding alone (`Tsq`, `MoveType`) and the immutable
LMR table are answered by pure functions of their arguments. -/

/-- A position-mutating operation: `DoMove`/`DoNull` push one of these onto
the position history, `UndoMove`/`UndoNull` pop it.  This is the free model
of the external make/unmake contract (spec section 3: `UndoMove` reverses
`DoMove`, `DoNull`/`UndoNull` restore the position exactly); the position at
a moment is the entry position with the current stack applied. -/
inductive PosOp
  | mv (m : Int)
  | nullmv
  deriving DecidableEq

/-- Bound kind of a transposition-table store: `LOWER`, `EXACT`, `UPPER`. -/
inductive Bound
  | lower
  | exact
  | upper
  deriving DecidableEq

/-- Externally visible events of one kernel frame, in program order. -/
inductive Ev
  /-- A read of `Glob.abort_search` at one of the four return-checks
  (lines 197, 293, 306, 496): on `true` with `mRootDepth > 1` the frame
  returns 0. -/
  | abortCheck (b : Bool)
  /-- The read of `Glob.abort_search` inside the PVS re-search condition
  (line 481); it never returns by itself. -/
  | abortRead (b : Bool)
  /-- `p->DoMove(move, u)` (line 365). -/
  | doMove (m : Int)
  /-- `p->UndoMove(move, u)` (lines 366, 405, 416, 495). -/
  | undoMove (m : Int)
  /-- `p->DoNull(u)` (line 282). -/
  | doNull
  /-- `p->UndoNull(u)` (line 292). -/
  | undoNull
  /-- A `Trans.Retrieve` probe (lines 222, 278, 289). -/
  | ttProbe
  /-- `Trans.Store(p->mHashKey, move, score, bound, depth, ply)`
  (lines 507, 546, 548). -/
  | ttStore (move score : Int) (b : Bound) (depth ply : Int)
  /-- `UpdateHistory` (lines 223, 502, 541). -/
  | histUpdate
  /-- One `DecreaseHistory` call (lines 504, 543). -/
  | histDecrease
  /-- `BuildPv(pv, new_pv, move)` writing `move` into the head of the
  frame's pv buffer (lines 512, 525). -/
  | buildPv (m : Int)
  /-- A callee that was handed the frame's own pv buffer (the IID recursion
  at line 334, the null-move verification recursion at line 304) wrote `v`
  into its head. -/
  | pvWrite (v : Int)
  deriving DecidableEq

/-- The oracle environment of one kernel frame.  `ℕ`-indexed fields are
answered at the current call counter; the counter advances by one per call,
in the exact evaluation order of the C source (including `&&`
short-circuiting, so a query that C skips consumes no index). -/
structure Env where
  /-- `Glob.abort_search` at a given poll. -/
  abort : ℕ → Bool
  /-- `p->IsDraw()` (line 199). -/
  isDraw : ℕ → Bool
  /-- `Trans.Retrieve(key, &move, &score, alpha, beta, depth, ply)`.
  Modelled from the spec (section 6, the table code is outside src/):
  `some (move, score)` when it returns true; on false the out-parameters
  are left unchanged. -/
  retrieve : ℕ → Option (Int × Int)
  /-- `Trans.RetrieveMove(key, &move)` (line 335); 0 when no move is found. -/
  retrieveMove : ℕ → Int
  /-- `Evaluate(p, &e)` (lines 230, 248). -/
  evalScore : ℕ → Int
  /-- `p->InCheck()` at a given query. -/
  inCheck : ℕ → Bool
  /-- `p->MayNull()` (line 265). -/
  mayNull : ℕ → Bool
  /-- `p->Pawns(p->mSide) & bb_rel_rank[p->mSide][RANK_7]` nonempty
  (line 318). -/
  pawnRank7 : ℕ → Bool
  /-- `p->DrawScore()` (lines 199, 535). -/
  drawScore : ℕ → Int
  /-- `QuiesceChecks(p, ply, alpha, beta, pv)`.  Modelled from the spec
  (sections 1 and 4.3: quiescence is a black box returning a leaf score;
  its code is outside src/, and the spec gives it no other effect). -/
  quiesce : ℕ → Int
  /-- The score returned by a recursive `Search` call. -/
  searchRes : ℕ → Int
  /-- The effect of a recursive `Search` call that received the frame's own
  pv buffer (lines 304, 334) on the buffer head: `some v` when the callee
  wrote `v` (a callee at a PV window writes its best move on every alpha
  raise, line 525), `none` when it left the head alone. -/
  pvEff : ℕ → Option Int
  /-- `NextMove(m, &mv_type)` (line 347): the move and its type; a zero move
  ends the loop. -/
  nextMove : ℕ → Int × Int
  /-- `p->Illegal()` (line 366). -/
  illegal : ℕ → Bool
  /-- `mHistory[p->mPc[Fsq(move)]][Tsq(move)]` (line 361). -/
  histScore : ℕ → Int
  /-- `p->TpOnSq(Tsq(move)) != NO_TP` (lines 362-363). -/
  isCapture : ℕ → Bool
  /-- `p->TpOnSq(Tsq(move)) == P && (SqBb(Tsq(move)) & (RANK_2_BB | RANK_7_BB))`
  (lines 395-396), the two position reads of the pawn-extension test merged
  into one query. -/
  pawnTo27 : ℕ → Bool
  /-- `Tsq(move)` — pure function of the move encoding. -/
  tsq : Int → Int
  /-- `MoveType(move) == CASTLE` — pure function of the move encoding. -/
  isCastle : Int → Bool
  /-- `msLmrSize[is_pv][depth][mv_tried]` — the immutable LMR table as the
  frame reads it (its contents are analysed separately above). -/
  lmr : Bool → Int → Int → Int
  /-- `Par.hist_limit`. -/
  histLimit : Int

/-- `MV_NORMAL` move-type tag.  Modelled from the spec: the tag values live
in the missing header; only equality tests against them occur. -/
def MV_NORMAL : Int := 0

/-- `MV_BADCAPT` move-type tag, from the missing header. -/
def MV_BADCAPT : Int := 1

/-! ## The aspiration windower `cEngine::Widen` (lines 150-168)

    int cur_val = lastScore, alpha, beta;
    if (depth > 6 && lastScore < MAX_EVAL) {
        for (int margin = 8; margin < 500; margin *= 2) {
            alpha = lastScore - margin;
            beta  = lastScore + margin;
            cur_val = Search(p, 0, alpha, beta, depth, false, -1, -1, pv);
            if (Glob.abort_search) break;
            if (cur_val > alpha && cur_val < beta) return cur_val;
            if (cur_val > MAX_EVAL) break;
        }
    }
    cur_val = Search(p, 0, -INF, INF, depth, false, -1, -1, pv);
    return cur_val;

Each `Search` call is answered by `env.searchRes` at the counter, followed
by the `Glob.abort_search` read at the next counter; the `(alpha, beta)`
window of every `Search` call is recorded in order. -/

/-- Result of `Widen`: the returned score, the final call counter, and the
windows passed to `Search`, in order. -/
structure WOut where
  res : Int
  n : ℕ
  windows : List (Int × Int)
  deriving DecidableEq

/-- The `for (margin = 8; margin < 500; margin *= 2)` loop of `Widen`.
The fuel only bounds the number of iterations; starting from margin 8 the
guard fails after six doublings (8·2^6 = 512 ≥ 500), so the fuel 7 used by
`Widen` is never exhausted. -/
def widenLoop (env : Env) (lastScore : Int) : ℕ → ℕ → ℕ → WOut
  | _, n, 0 => ⟨0, n, []⟩
  | margin, n, fuel + 1 =>
    if margin < 500 then
      let alpha := lastScore - (margin : Int)
      let beta := lastScore + (margin : Int)
      let cv := env.searchRes n
      let ab := env.abort (n + 1)
      if ab = true then
        ⟨env.searchRes (n + 2), n + 3, [(alpha, beta), (-INF, INF)]⟩
      else if cv > alpha ∧ cv < beta then
        ⟨cv, n + 2, [(alpha, beta)]⟩
      else if cv > MAX_EVAL then
        ⟨env.searchRes (n + 2), n + 3, [(alpha, beta), (-INF, INF)]⟩
      else
        let w := widenLoop env lastScore (margin * 2) (n + 2) fuel
        ⟨w.res, w.n, (alpha, beta) :: w.windows⟩
    else
      ⟨env.searchRes n, n + 1, [(-INF, INF)]⟩

/-- `cEngine::Widen` with the kernel calls answered by the environment. -/
def Widen (env : Env) (depth lastScore : Int) (n : ℕ) : WOut :=
  if depth > 6 ∧ lastScore < MAX_EVAL then
    widenLoop env lastScore 8 n 7
  else
    ⟨env.searchRes n, n + 1, [(-INF, INF)]⟩

/-- The aspiration margins the doubling loop enumerates: 8, 16, 32, 64,
128, 256 (the next doubling, 512, fails the `margin < 500` guard). -/
def aspMarginList : List ℕ := [8, 16, 32, 64, 128, 256]

/-- The amended claim C4, written from its own words: enter the aspiration
loop exactly when `depth > 6` and `lastScore < MAX_EVAL` (a signed
comparison); the windows are `[lastScore - m, lastScore + m]` for the
margins 8, 16, 32, 64, 128, 256 in order; return the score when it lies
strictly inside the window; break to the full-window search on abort or
when the score exceeds `MAX_EVAL` (fail-high side only); after the margins
are exhausted, fall through to a single `[-INF, INF]` search. -/
def WidenAmendedSpec (env : Env) (depth lastScore : Int) (n : ℕ) : WOut :=
  if depth > 6 ∧ lastScore < MAX_EVAL then
    widenSpecGo env lastScore aspMarginList n
  else
    ⟨env.searchRes n, n + 1, [(-INF, INF)]⟩
where
  /-- One narrowed call per remaining margin, then the full window. -/
  widenSpecGo (env : Env) (lastScore : Int) : List ℕ → ℕ → WOut
    | [], n => ⟨env.searchRes n, n + 1, [(-INF, INF)]⟩
    | m :: rest, n =>
      let alpha := lastScore - (m : Int)
      let beta := lastScore + (m : Int)
      let cv := env.searchRes n
      let ab := env.abort (n + 1)
      if ab = true then
        ⟨env.searchRes (n + 2), n + 3, [(alpha, beta), (-INF, INF)]⟩
      else if cv > alpha ∧ cv < beta then
        ⟨cv, n + 2, [(alpha, beta)]⟩
      else if cv > MAX_EVAL then
        ⟨env.searchRes (n + 2), n + 3, [(alpha, beta), (-INF, INF)]⟩
      else
        let w := widenSpecGo env lastScore rest (n + 2)
        ⟨w.res, w.n, (alpha, beta) :: w.windows⟩

/-- `POS::DrawScore` (lines 654-658):

    if (mSide == Par.prog_side) return -Par.draw_score;
    else                        return  Par.draw_score;

`mSide`, `Par.prog_side` and `Par.draw_score` become explicit arguments. -/
def DrawScore (mSide progSide drawScore : Int) : Int :=
  if mSide = progSide then -drawScore else drawScore

/-! ## One frame of `cEngine::Search` (lines 170-551)

The frame is split into the stages of the source, in source order: the
entry checks and mate-distance pruning, the pre-loop pruning blocks, the
main move loop, and the post-loop terminal returns and stores.  Each stage
threads the call counter, the accumulated event trace, the position stack
and the pv-buffer head, and either exits the frame (`Out`) or continues.
Recursive `Search` calls and `QuiesceChecks` are answered by the oracle;
they do not touch the frame's position stack (the callee restores the
position — exactly the per-frame property proved below, taken as the
contract for callees) and they do not touch the frame's pv head unless
they were handed the frame's own buffer (oracle field `pvEff`). -/

/-- How one frame exited (a ghost label on the exit site; it carries no
information the trace and result do not already determine). -/
inductive ExitTag
  | quiesce | abortEntry | drawExit | mdpAlpha | mdpBeta | ttCut | maxPly
  | snp | nullAbort | nullVerAbort | nullCut | razor
  | fuelOut | abortLoop | betaCut | noLegal | stored
  deriving DecidableEq

/-- Result of one kernel frame: the returned score (`none` only when the
loop fuel ran out, which no real execution does), the final call counter,
the event trace of the frame, the final position stack, and the final pv
head. -/
structure Out where
  res : Option Int
  n : ℕ
  trace : List Ev
  pos : List PosOp
  pvHead : Int
  tag : ExitTag
  deriving DecidableEq

/-- State after the entry stage (lines 191-232): counter, trace, pv head,
the possibly mate-distance-tightened window, and the hash move. -/
structure EntrySt where
  n : ℕ
  trace : List Ev
  pvHead : Int
  alpha : Int
  beta : Int
  move : Int
  deriving DecidableEq

/-- State after the pre-loop stage (lines 234-343). -/
structure MidSt where
  n : ℕ
  trace : List Ev
  pvHead : Int
  alpha : Int
  beta : Int
  move : Int
  flCheck : Bool
  flPrunable : Bool
  evalv : Int
  didNull : Bool
  refSq : Int
  deriving DecidableEq

/-- State of one iteration of the main move loop (lines 347-530). -/
structure LoopSt where
  n : ℕ
  trace : List Ev
  pvHead : Int
  alpha : Int
  best : Int
  flFutility : Bool
  mvTried : ℕ
  quietTried : ℕ
  pos : List PosOp
  deriving DecidableEq

/-- Continuation state of the null-move block (lines 262-309). -/
structure NullRes where
  n : ℕ
  trace : List Ev
  pvHead : Int
  move : Int
  didNull : Bool
  refSq : Int
  deriving DecidableEq

/-- Continuation state of internal iterative deepening (lines 330-336). -/
structure IidRes where
  n : ℕ
  trace : List Ev
  pvHead : Int
  move : Int
  deriving DecidableEq

/-- Result of one principal-variation-search step (lines 477-483). -/
structure PvsOut where
  score : Int
  n : ℕ
  evs : List Ev
  deriving DecidableEq

/-- Entry stage, lines 191-232: node init and abort check, pv-head clear at
`ply > 0`, rule-draw exit, mate-distance pruning, transposition probe with
its non-PV cutoff, and the max-ply safeguard. -/
def entryStage (env : Env) (ply alpha beta rd : Int) (isPv : Bool) (n : ℕ)
    (pos : List PosOp) (pv : Int) : Sum Out EntrySt :=
  -- Glob.nodes++; Slowdown(); if (Glob.abort_search && mRootDepth > 1) return 0;
  let ab := env.abort n
  let n1 := n + 1
  let tr : List Ev := [Ev.abortCheck ab]
  if ab = true ∧ rd > 1 then .inl ⟨some 0, n1, tr, pos, pv, .abortEntry⟩
  else
    -- if (ply) *pv = 0;
    let pv1 := if ply ≠ 0 then 0 else pv
    -- if (p->IsDraw() && ply) return p->DrawScore();
    let dr := env.isDraw n1
    let n2 := n1 + 1
    if dr = true ∧ ply ≠ 0 then
      .inl ⟨some (env.drawScore n2), n2 + 1, tr, pos, pv1, .drawExit⟩
    else
      -- MATE DISTANCE PRUNING (lines 202-218); move = 0;
      if ply ≠ 0 ∧ MATE - ply < beta ∧ alpha ≥ MATE - ply then
        .inl ⟨some alpha, n2, tr, pos, pv1, .mdpAlpha⟩
      else
        let beta1 := if ply ≠ 0 ∧ MATE - ply < beta then MATE - ply else beta
        if ply ≠ 0 ∧ -MATE + ply > alpha ∧ beta1 ≤ -MATE + ply then
          .inl ⟨some beta1, n2, tr, pos, pv1, .mdpBeta⟩
        else
          let alpha1 := if ply ≠ 0 ∧ -MATE + ply > alpha then -MATE + ply else alpha
          -- RETRIEVE MOVE FROM TRANSPOSITION TABLE (lines 222-225)
          let tr1 := tr ++ [Ev.ttProbe]
          let n3 := n2 + 1
          match env.retrieve n2 with
          | some (mv, sc) =>
            let tr2 := if sc ≥ beta1 then tr1 ++ [Ev.histUpdate] else tr1
            if isPv = false then .inl ⟨some sc, n3, tr2, pos, pv1, .ttCut⟩
            else
              -- SAFEGUARD AGAINST REACHING MAX PLY LIMIT (lines 229-232)
              if ply ≥ MAX_PLY - 1 then
                .inl ⟨some (env.evalScore n3), n3 + 1, tr2, pos, pv1, .maxPly⟩
              else .inr ⟨n3, tr2, pv1, alpha1, beta1, mv⟩
          | none =>
            if ply ≥ MAX_PLY - 1 then
              .inl ⟨some (env.evalScore n3), n3 + 1, tr1, pos, pv1, .maxPly⟩
            else .inr ⟨n3, tr1, pv1, alpha1, beta1, 0⟩

/-- The verification re-search and the second abort check of the null-move
block, lines 299-308: entered when the (clamped) null score reached beta.
`score1` is that clamped score, `n` the counter right after the first
abort check. -/
def nullVerify (env : Env) (ply alpha beta : Int) (newDepth score1 move1 refSq rd : Int)
    (n : ℕ) (tr : List Ev) (pos : List PosOp) (pv : Int) : Sum Out NullRes :=
  if newDepth > 6 then
    -- score = Search(p, ply, alpha, beta, new_depth - 5, true, last_move, last_capt_sq, pv);
    let vres := env.searchRes n
    let pv1 := (env.pvEff n).getD pv
    let tr6 := match env.pvEff n with
      | some v => tr ++ [Ev.pvWrite v]
      | none => tr
    let n6 := n + 1
    let ab2 := env.abort n6
    let n7 := n6 + 1
    let tr7 := tr6 ++ [Ev.abortCheck ab2]
    if ab2 = true ∧ rd > 1 then .inl ⟨some 0, n7, tr7, pos, pv1, .nullVerAbort⟩
    else if vres ≥ beta then .inl ⟨some vres, n7, tr7, pos, pv1, .nullCut⟩
    else .inr ⟨n7, tr7, pv1, move1, true, refSq⟩
  else
    -- no verification; the line-306 abort check and the cutoff return remain
    let ab2 := env.abort n
    let n6 := n + 1
    let tr6 := tr ++ [Ev.abortCheck ab2]
    if ab2 = true ∧ rd > 1 then .inl ⟨some 0, n6, tr6, pos, pv, .nullVerAbort⟩
    else .inl ⟨some score1, n6, tr6, pos, pv, .nullCut⟩

/-- The tail of the null-move block, lines 297-308: `score1` is the score
after the unproved-mate clamp; on a cutoff the verification (and the
line-306 abort check) run, otherwise fall through to `avoid_null`. -/
def nullFinish (env : Env) (ply alpha beta : Int) (newDepth score1 move1 refSq rd : Int)
    (n : ℕ) (tr : List Ev) (pos : List PosOp) (pv : Int) : Sum Out NullRes :=
  if score1 ≥ beta then
    nullVerify env ply alpha beta newDepth score1 move1 refSq rd n tr pos pv
  else .inr ⟨n, tr, pv, move1, true, refSq⟩

/-- The null search itself, lines 282-308: `DoNull`, the reduced-depth
null-window search (or quiescence), the refutation re-probe, `UndoNull`,
the abort check, the unproved-mate clamp, and the cutoff test. -/
def nullRun (env : Env) (ply alpha beta rd : Int) (newDepth move1 : Int)
    (n : ℕ) (tr : List Ev) (pos : List PosOp) (pv : Int) : Sum Out NullRes :=
  -- p->DoNull(u);
  let pos1 := PosOp.nullmv :: pos
  let tr2 := tr ++ [Ev.doNull]
  let score := if newDepth ≤ 0 then -(env.quiesce n) else -(env.searchRes n)
  let n3 := n + 1
  -- Trans.Retrieve(key, &null_refutation, &null_score, ..., depth, ply); (line 289)
  let probe2 := env.retrieve n3
  let n4 := n3 + 1
  let tr3 := tr2 ++ [Ev.ttProbe]
  let nullRefutation := match probe2 with | some (m2, _) => m2 | none => (-1 : Int)
  let refSq := if nullRefutation > 0 then env.tsq nullRefutation else -1
  -- p->UndoNull(u);
  let pos2 := pos1.tail
  let tr4 := tr3 ++ [Ev.undoNull]
  let ab := env.abort n4
  let n5 := n4 + 1
  let tr5 := tr4 ++ [Ev.abortCheck ab]
  if ab = true ∧ rd > 1 then .inl ⟨some 0, n5, tr5, pos2, pv, .nullAbort⟩
  else
    -- if (score >= MAX_EVAL) score = beta;
    nullFinish env ply alpha beta newDepth (if score ≥ MAX_EVAL then beta else score)
      move1 refSq rd n5 tr5 pos2 pv

/-- The null-move block, lines 262-309: its entry conditions, the
hash-probe shortcut (`goto avoid_null`), and the null search. -/
def nullBlock (env : Env) (ply depth : Int) (wasNull : Bool)
    (alpha beta evalv rd : Int) (flPrunable : Bool) (n : ℕ) (tr : List Ev)
    (pos : List PosOp) (pv : Int) (move : Int) : Sum Out NullRes :=
  -- if (depth > 1 && !was_null && fl_prunable_node && p->MayNull() && eval >= beta)
  if depth > 1 ∧ wasNull = false ∧ flPrunable = true then
    let mn := env.mayNull n
    let n1 := n + 1
    if mn = true ∧ evalv ≥ beta then
      -- did_null = true;
      -- new_depth = depth - ((823 + 67 * depth) / 256) - Min(3, (eval - beta) / 200);
      let newDepth := depth - (823 + 67 * depth) / 256 - min 3 ((evalv - beta) / 200)
      -- if (Trans.Retrieve(key, &move, &null_score, alpha, beta, new_depth, ply))
      --     if (null_score < beta) goto avoid_null;
      let probe := env.retrieve n1
      let n2 := n1 + 1
      let tr1 := tr ++ [Ev.ttProbe]
      let move1 := match probe with | some (mv, _) => mv | none => move
      let skipNull := match probe with | some (_, nsc) => decide (nsc < beta) | none => false
      if skipNull = true then .inr ⟨n2, tr1, pv, move1, true, -1⟩
      else nullRun env ply alpha beta rd newDepth move1 n2 tr1 pos pv
    else .inr ⟨n1, tr, pv, move, false, -1⟩
  else .inr ⟨n, tr, pv, move, false, -1⟩

/-- Razoring, lines 315-326. -/
def razorStage (env : Env) (ply depth : Int) (wasNull : Bool)
    (beta evalv move : Int) (flPrunable : Bool) (n : ℕ) (tr : List Ev)
    (pos : List PosOp) (pv : Int) : Sum Out ℕ :=
  if flPrunable = true ∧ move = 0 ∧ wasNull = false then
    let pr := env.pawnRank7 n
    let n1 := n + 1
    if pr = false ∧ depth ≤ mscRazorDepth then
      let threshold := beta - mscRazorMargin depth
      if evalv < threshold then
        let q := env.quiesce n1
        let n2 := n1 + 1
        if q < threshold then .inl ⟨some q, n2, tr, pos, pv, .razor⟩
        else .inr n2
      else .inr n1
    else .inr n1
  else .inr n

/-- Internal iterative deepening, lines 330-336: a discarded recursive
`Search` at `depth - 2` that was handed the frame's pv buffer, then a
`Trans.RetrieveMove` re-probe for the hash move. -/
def iidStage (env : Env) (ply depth move : Int) (isPv flCheck : Bool)
    (n : ℕ) (tr : List Ev) (pv : Int) : IidRes :=
  if isPv = true ∧ flCheck = false ∧ move = 0 ∧ depth > 6 then
    let pv1 := (env.pvEff n).getD pv
    let tr1 := match env.pvEff n with
      | some v => tr ++ [Ev.pvWrite v]
      | none => tr
    let n1 := n + 1
    let mv := env.retrieveMove n1
    ⟨n1 + 1, tr1, pv1, mv⟩
  else ⟨n, tr, pv, move⟩

/-- Pre-loop stage after the lazy eval, lines 253-343: static null move,
null move, razoring, internal iterative deepening.  `evalv` is the value
of the C variable `eval` at line 253. -/
def preCont (env : Env) (ply depth : Int) (wasNull isPv : Bool)
    (lastMove lastCaptSq rd : Int) (pos : List PosOp)
    (alpha beta move pvHead : Int) (tr : List Ev)
    (flCheck flPrunable : Bool) (evalv : Int) (n : ℕ) : Sum Out MidSt :=
  -- BETA PRUNING / STATIC NULL MOVE, lines 253-258
  if flPrunable = true ∧ depth ≤ mscSnpDepth ∧ wasNull = false ∧ evalv - 120 * depth > beta then
    .inl ⟨some (evalv - 120 * depth), n, tr, pos, pvHead, .snp⟩
  else
    match nullBlock env ply depth wasNull alpha beta evalv rd flPrunable n tr pos pvHead move with
    | .inl o => .inl o
    | .inr nr =>
      match razorStage env ply depth wasNull beta evalv nr.move flPrunable nr.n nr.trace pos nr.pvHead with
      | .inl o => .inl o
      | .inr n3 =>
        let ii := iidStage env ply depth nr.move isPv flCheck n3 nr.trace nr.pvHead
        .inr ⟨ii.n, ii.trace, ii.pvHead, alpha, beta, ii.move, flCheck, flPrunable, evalv, nr.didNull, nr.refSq⟩

/-- Pre-loop stage, lines 234-343: check flag, prunability, and the lazy
eval (lines 245-249), then `preCont`. -/
def preStage (env : Env) (ply depth : Int) (wasNull isPv : Bool)
    (lastMove lastCaptSq rd : Int) (pos : List PosOp) (st : EntrySt) :
    Sum Out MidSt :=
  -- fl_check = p->InCheck();
  let flCheck := env.inCheck st.n
  let n1 := st.n + 1
  -- fl_prunable_node, lines 238-241 (alpha and beta after mate-distance pruning)
  let flPrunable : Bool :=
    !flCheck && !isPv && decide (st.alpha > -MAX_EVAL) && decide (st.beta < MAX_EVAL)
  -- int eval = 0; if (fl_prunable_node && (!was_null || depth <= mscSelectiveDepth)) eval = Evaluate(p, &e);
  if flPrunable = true ∧ (wasNull = false ∨ depth ≤ mscSelectiveDepth) then
    preCont env ply depth wasNull isPv lastMove lastCaptSq rd pos
      st.alpha st.beta st.move st.pvHead st.trace flCheck flPrunable (env.evalScore n1) (n1 + 1)
  else
    preCont env ply depth wasNull isPv lastMove lastCaptSq rd pos
      st.alpha st.beta st.move st.pvHead st.trace flCheck flPrunable 0 n1

/-- One principal-variation-search step, lines 477-483: full window for the
first move, zero window then conditional re-search for the others.  The
read of `Glob.abort_search` in the re-search condition is recorded as
`abortRead`. -/
def pvsStep (env : Env) (best alpha beta newDepth : Int) (n : ℕ) : PvsOut :=
  if best = -INF then
    ⟨-(env.searchRes n), n + 1, []⟩
  else
    let s := -(env.searchRes n)
    let ab := env.abort (n + 1)
    if ab = false ∧ s > alpha ∧ s < beta then
      ⟨-(env.searchRes (n + 2)), n + 3, [Ev.abortRead ab]⟩
    else ⟨s, n + 2, [Ev.abortRead ab]⟩

/-- Terminal stage after the move loop, lines 532-550: checkmate/stalemate
return when no move raised `best` above `-INF`, otherwise the EXACT or
UPPER transposition store with the matching history updates. -/
def finStage (env : Env) (ply depth : Int) (flCheck : Bool)
    (pos : List PosOp) (st : LoopSt) : Out :=
  if st.best = -INF then
    -- return p->InCheck() ? -MATE + ply : p->DrawScore();
    if env.inCheck st.n = true then
      ⟨some (-MATE + ply), st.n + 1, st.trace, pos, st.pvHead, .noLegal⟩
    else
      ⟨some (env.drawScore (st.n + 1)), st.n + 2, st.trace, pos, st.pvHead, .noLegal⟩
  else if st.pvHead ≠ 0 then
    let tr1 :=
      if flCheck = false then
        st.trace ++ [Ev.histUpdate] ++ List.replicate st.mvTried Ev.histDecrease
      else st.trace
    ⟨some st.best, st.n, tr1 ++ [Ev.ttStore st.pvHead st.best Bound.exact depth ply], pos, st.pvHead, .stored⟩
  else
    ⟨some st.best, st.n, st.trace ++ [Ev.ttStore 0 st.best Bound.upper depth ply], pos, st.pvHead, .stored⟩

/-- The loop-invariant context of the main move loop: the environment, the
frame arguments the loop reads, and the flags computed before the loop.
The position stack itself is part of the loop state (`LoopSt.pos`): the
`DoMove` push and the paired `UndoMove` pops are threaded through each
iteration. -/
structure LCtx where
  env : Env
  ply : Int
  beta : Int
  depth : Int
  isPv : Bool
  flCheck : Bool
  flPrunable : Bool
  didNull : Bool
  evalv : Int
  lastCaptSq : Int
  rd : Int

/-- Unmake and the rest of one loop iteration, lines 495-528: `UndoMove`,
the abort check, the beta cutoff with its history updates, LOWER store and
root pv rebuild, and the new-best bookkeeping. -/
def stepUndo (c : LCtx) (move : Int) (flFut : Bool) (mvTried quietTried : ℕ)
    (alpha best pvHead : Int) (tr : List Ev) (ps : List PosOp) (score : Int) (n : ℕ) : Sum Out LoopSt :=
  -- p->UndoMove(move, u); if (Glob.abort_search && mRootDepth > 1) return 0;
  let ps2 := ps.tail
  let tr3 := tr ++ [Ev.undoMove move]
  let ab := c.env.abort n
  let n1 := n + 1
  let tr4 := tr3 ++ [Ev.abortCheck ab]
  if ab = true ∧ c.rd > 1 then .inl ⟨some 0, n1, tr4, ps2, pvHead, .abortLoop⟩
  else if score ≥ c.beta then
    -- BETA CUTOFF, lines 500-517
    let tr5 :=
      if c.flCheck = false then
        tr4 ++ [Ev.histUpdate] ++ List.replicate mvTried Ev.histDecrease
      else tr4
    let tr6 := tr5 ++ [Ev.ttStore move score Bound.lower c.depth c.ply]
    if c.ply = 0 then .inl ⟨some score, n1, tr6 ++ [Ev.buildPv move], ps2, move, .betaCut⟩
    else .inl ⟨some score, n1, tr6, ps2, pvHead, .betaCut⟩
  else
    -- NEW BEST MOVE, lines 521-528
    if score > best then
      if score > alpha then
        .inr ⟨n1, tr4 ++ [Ev.buildPv move], move, score, score, flFut, mvTried, quietTried, ps2⟩
      else .inr ⟨n1, tr4, pvHead, alpha, score, flFut, mvTried, quietTried, ps2⟩
    else .inr ⟨n1, tr4, pvHead, alpha, best, flFut, mvTried, quietTried, ps2⟩

/-- The PVS block with the reduction re-search, lines 473-491: run one
`pvsStep`; when the reduced move scored above alpha and a reduction was
applied, restore the depth and re-enter the PVS once with reduction
zero. -/
def stepPvs (c : LCtx) (move mvType : Int) (flFut : Bool) (mvHist : Int)
    (mvTried quietTried : ℕ) (alpha best pvHead : Int) (tr : List Ev)
    (ps : List PosOp) (red nd : Int) (n : ℕ) : Sum Out LoopSt :=
  let p1 := pvsStep c.env best alpha c.beta nd n
  if p1.score > alpha ∧ red ≠ 0 then
    let p2 := pvsStep c.env best alpha c.beta (nd + red) p1.n
    stepUndo c move flFut mvTried quietTried alpha best pvHead (tr ++ p1.evs ++ p2.evs) ps p2.score p2.n
  else
    stepUndo c move flFut mvTried quietTried alpha best pvHead (tr ++ p1.evs) ps p1.score p1.n

/-- LMR 2 (marginal reduction of bad captures), lines 462-471. -/
def stepLmr2 (c : LCtx) (move mvType : Int) (flFut : Bool) (mvHist : Int)
    (mvTried quietTried : ℕ) (alpha best pvHead : Int) (tr : List Ev)
    (ps : List PosOp) (red nd : Int) (n : ℕ) : Sum Out LoopSt :=
  if c.depth > 2 ∧ mvTried > 6 ∧ alpha > -MAX_EVAL ∧ c.beta < MAX_EVAL ∧ c.flCheck = false then
    let chk := c.env.inCheck n
    let n1 := n + 1
    if chk = false ∧ mvType = MV_BADCAPT ∧ c.isPv = false then
      stepPvs c move mvType flFut mvHist mvTried quietTried alpha best pvHead tr ps 1 (nd - 1) n1
    else stepPvs c move mvType flFut mvHist mvTried quietTried alpha best pvHead tr ps red nd n1
  else stepPvs c move mvType flFut mvHist mvTried quietTried alpha best pvHead tr ps red nd n

/-- The bad-history increment of LMR 1 (lines 451-453) and the final
`new_depth = new_depth - reduction` (line 457).  `red2` is the reduction
after the sherwin increment, `nd` the unreduced new depth. -/
def stepLmr1c (c : LCtx) (move mvType : Int) (flFut : Bool) (mvHist : Int)
    (mvTried quietTried : ℕ) (alpha best pvHead : Int) (tr : List Ev)
    (ps : List PosOp) (red2 nd : Int) (n : ℕ) : Sum Out LoopSt :=
  if mvHist < 0 ∧ nd - red2 ≥ 2 then
    stepLmr2 c move mvType flFut mvHist mvTried quietTried alpha best pvHead tr ps (red2 + 1) (nd - (red2 + 1)) n
  else
    stepLmr2 c move mvType flFut mvHist mvTried quietTried alpha best pvHead tr ps red2 (nd - red2) n

/-- LMR 1 for normal moves, lines 430-458: the gate conditions, the table
read, and the sherwin increment (lines 445-447). -/
def stepLmr1 (c : LCtx) (move mvType : Int) (flFut : Bool) (mvHist : Int)
    (mvTried quietTried : ℕ) (alpha best pvHead : Int) (tr : List Ev)
    (ps : List PosOp) (sherwinFlag : Bool) (nd : Int) (n : ℕ) : Sum Out LoopSt :=
  if c.depth > 2 ∧ mvTried > 3 ∧ c.flCheck = false then
    let chk := c.env.inCheck n
    let n1 := n + 1
    if chk = false ∧ c.env.lmr c.isPv c.depth (mvTried : Int) > 0 ∧ mvType = MV_NORMAL
       ∧ mvHist < c.env.histLimit ∧ c.env.isCastle move = false then
      let red := c.env.lmr c.isPv c.depth (mvTried : Int)
      if sherwinFlag = true ∧ nd - red ≥ 2 then
        stepLmr1c c move mvType flFut mvHist mvTried quietTried alpha best pvHead tr ps (red + 1) nd n1
      else
        stepLmr1c c move mvType flFut mvHist mvTried quietTried alpha best pvHead tr ps red nd n1
    else stepLmr2 c move mvType flFut mvHist mvTried quietTried alpha best pvHead tr ps 0 nd n1
  else stepLmr2 c move mvType flFut mvHist mvTried quietTried alpha best pvHead tr ps 0 nd n

/-- The sherwin flag, lines 421-426: after a null move, at depth above 2
and not giving check, a null-window quiescence probe that still reaches
beta marks the move for an extra reduction. -/
def stepSher (c : LCtx) (move mvType : Int) (flFut : Bool) (mvHist : Int)
    (mvTried quietTried : ℕ) (alpha best pvHead : Int) (tr : List Ev)
    (ps : List PosOp) (nd : Int) (n : ℕ) : Sum Out LoopSt :=
  if c.didNull = true ∧ c.depth > 2 then
    let chk := c.env.inCheck n
    if chk = false then
      stepLmr1 c move mvType flFut mvHist mvTried quietTried alpha best pvHead tr ps
        (decide (c.env.quiesce (n + 1) ≥ c.beta)) nd (n + 2)
    else stepLmr1 c move mvType flFut mvHist mvTried quietTried alpha best pvHead tr ps false nd (n + 1)
  else stepLmr1 c move mvType flFut mvHist mvTried quietTried alpha best pvHead tr ps false nd n

/-- Late-move pruning, lines 410-417. -/
def stepLmp (c : LCtx) (move mvType : Int) (flFut : Bool) (mvHist : Int)
    (mvTried quietTried : ℕ) (alpha best pvHead : Int) (tr : List Ev)
    (ps : List PosOp) (nd : Int) (n : ℕ) : Sum Out LoopSt :=
  if c.flPrunable = true ∧ c.depth ≤ 3 ∧ (quietTried : Int) > 3 * c.depth then
    let chk := c.env.inCheck n
    let n1 := n + 1
    if chk = false ∧ mvHist < c.env.histLimit ∧ mvType = MV_NORMAL then
      .inr ⟨n1, tr ++ [Ev.undoMove move], pvHead, alpha, best, flFut, mvTried, quietTried, ps.tail⟩
    else stepSher c move mvType flFut mvHist mvTried quietTried alpha best pvHead tr ps nd n1
  else stepSher c move mvType flFut mvHist mvTried quietTried alpha best pvHead tr ps nd n

/-- Futility pruning, lines 400-406. -/
def stepFut (c : LCtx) (move mvType : Int) (flFut : Bool) (mvHist : Int)
    (mvTried quietTried : ℕ) (alpha best pvHead : Int) (tr : List Ev)
    (ps : List PosOp) (nd : Int) (n : ℕ) : Sum Out LoopSt :=
  if flFut = true then
    let chk := c.env.inCheck n
    let n1 := n + 1
    if chk = false ∧ mvHist < c.env.histLimit ∧ mvType = MV_NORMAL ∧ mvTried > 1 then
      .inr ⟨n1, tr ++ [Ev.undoMove move], pvHead, alpha, best, flFut, mvTried, quietTried, ps.tail⟩
    else stepLmp c move mvType flFut mvHist mvTried quietTried alpha best pvHead tr ps nd n1
  else stepLmp c move mvType flFut mvHist mvTried quietTried alpha best pvHead tr ps nd n

/-- Recapture and pawn-push extensions, lines 389-396. -/
def stepExtB (c : LCtx) (move mvType : Int) (flFut : Bool) (mvHist : Int)
    (mvTried quietTried : ℕ) (alpha best pvHead : Int) (tr : List Ev)
    (ps : List PosOp) (nd1 : Int) (n : ℕ) : Sum Out LoopSt :=
  -- if (is_pv && Tsq(move) == last_capt_sq) new_depth += 1;
  let nd2 := if c.isPv = true ∧ c.env.tsq move = c.lastCaptSq then nd1 + 1 else nd1
  -- if (is_pv && depth < 6 && p->TpOnSq(Tsq(move)) == P && (SqBb(Tsq(move)) & (RANK_2_BB | RANK_7_BB)))
  if c.isPv = true ∧ c.depth < 6 then
    stepFut c move mvType flFut mvHist mvTried quietTried alpha best pvHead tr ps
      (if c.env.pawnTo27 n = true then nd2 + 1 else nd2) (n + 1)
  else stepFut c move mvType flFut mvHist mvTried quietTried alpha best pvHead tr ps nd2 n

/-- New search depth and the check extension, lines 379-385. -/
def stepExtA (c : LCtx) (move mvType : Int) (flFut : Bool) (mvHist : Int)
    (mvTried quietTried : ℕ) (alpha best pvHead : Int) (tr : List Ev)
    (ps : List PosOp) (n : ℕ) : Sum Out LoopSt :=
  -- new_depth = depth - 1; if (is_pv || depth < 8) new_depth += p->InCheck();
  if c.isPv = true ∨ c.depth < 8 then
    stepExtB c move mvType flFut mvHist mvTried quietTried alpha best pvHead tr ps
      (if c.env.inCheck n = true then c.depth - 1 + 1 else c.depth - 1) (n + 1)
  else stepExtB c move mvType flFut mvHist mvTried quietTried alpha best pvHead tr ps (c.depth - 1) n

/-- One iteration of the main move loop, lines 347-373: move generation,
futility arming, history and capture reads, make and the illegal skip,
and the try counters; the rest of the iteration follows in the `step`
chain. -/
def loopBody (c : LCtx) (st : LoopSt) : Sum Out LoopSt :=
  -- while ((move = NextMove(m, &mv_type)))
  let nm := c.env.nextMove st.n
  let move := nm.1
  let mvType := nm.2
  let n1 := st.n + 1
  if move = 0 then .inl (finStage c.env c.ply c.depth c.flCheck st.pos { st with n := n1 })
  else
    -- SET FUTILITY PRUNING FLAG, lines 352-357
    let flFut :=
      if mvType = MV_NORMAL ∧ st.quietTried = 0 ∧ c.flPrunable = true ∧ c.depth ≤ mscFutDepth
         ∧ c.evalv + mscFutMargin c.depth < c.beta
      then true else st.flFutility
    -- MAKE MOVE, lines 361-366
    let mvHist := c.env.histScore n1
    let n2 := n1 + 1
    let isCap := c.env.isCapture n2
    let n3 := n2 + 1
    -- last_capt is threaded to the recursive calls, which the oracle answers
    let lastCapt := if isCap = true then c.env.tsq move else -1
    -- p->DoMove(move, u); pushes the move onto the position stack
    let tr1 := st.trace ++ [Ev.doMove move]
    let pos1 := PosOp.mv move :: st.pos
    let ill := c.env.illegal n3
    let n4 := n3 + 1
    if ill = true then
      -- { p->UndoMove(move, u); continue; } pops it again
      .inr ⟨n4, tr1 ++ [Ev.undoMove move], st.pvHead, st.alpha, st.best, flFut, st.mvTried, st.quietTried, pos1.tail⟩
    else
      -- mv_played[mv_tried] = move; mv_tried++; quiet_tried++ for normal moves
      stepExtA c move mvType flFut mvHist (st.mvTried + 1)
        (if mvType = MV_NORMAL then st.quietTried + 1 else st.quietTried)
        st.alpha st.best st.pvHead tr1 pos1 n4

/-- The main move loop: iterate `loopBody` until an exit; the fuel bounds
the number of generated moves (the generator is finite in any real
execution). -/
def loopStage (c : LCtx) : ℕ → LoopSt → Out
  | 0, st => ⟨none, st.n, st.trace, st.pos, st.pvHead, .fuelOut⟩
  | fuel + 1, st =>
    match loopBody c st with
    | .inl o => o
    | .inr st2 => loopStage c fuel st2

/-- One frame of `cEngine::Search(p, ply, alpha, beta, depth, was_null,
last_move, last_capt_sq, pv)`, with the worker's `mRootDepth` as `rd`, the
oracle counter `n`, the position history stack `pos` and the pv-buffer head
`pv`. -/
def Search (env : Env) (fuel : ℕ) (ply alpha beta depth : Int) (wasNull : Bool)
    (lastMove lastCaptSq rd : Int) (n : ℕ) (pos : List PosOp) (pv : Int) : Out :=
  -- is_pv = (alpha != beta - 1); (line 186, from the entry window)
  let isPv : Bool := decide (alpha ≠ beta - 1)
  -- if (depth <= 0) return QuiesceChecks(p, ply, alpha, beta, pv);
  if depth ≤ 0 then ⟨some (env.quiesce n), n + 1, [], pos, pv, .quiesce⟩
  else
    match entryStage env ply alpha beta rd isPv n pos pv with
    | .inl o => o
    | .inr st =>
      match preStage env ply depth wasNull isPv lastMove lastCaptSq rd pos st with
      | .inl o => o
      | .inr mid =>
        -- best = -INF; InitMoves(p, m, move, Refutation(move), ref_sq, ply);
        loopStage
          ⟨env, ply, mid.beta, depth, isPv, mid.flCheck, mid.flPrunable, mid.didNull,
           mid.evalv, lastCaptSq, rd⟩ fuel
          ⟨mid.n, mid.trace, mid.pvHead, mid.alpha, -INF, false, 0, 0, pos⟩

/-! ## Concrete environments for witnesses and counterexamples -/

/-- A computable environment: the abort flag stays low, the table always
misses, the position is never in check, never drawn, has no pawn on the
relative seventh rank; every recursive search scores `sr`; the move
generator yields the single move `7` (a quiet `MV_NORMAL` move) when polled
at counter `mvIdx` and the terminating zero move otherwise; `pvW` gives the
pv effect of buffer-sharing callees. -/
def mkEnv (sr : Int) (mvIdx : ℕ) (pvW : ℕ → Option Int) : Env where
  abort := fun _ => false
  isDraw := fun _ => false
  retrieve := fun _ => none
  retrieveMove := fun _ => 0
  evalScore := fun _ => 0
  inCheck := fun _ => false
  mayNull := fun _ => true
  pawnRank7 := fun _ => false
  drawScore := fun _ => 7
  quiesce := fun _ => 0
  searchRes := fun _ => sr
  pvEff := pvW
  nextMove := fun n => if n = mvIdx then (7, 0) else (0, 0)
  illegal := fun _ => false
  histScore := fun _ => 0
  isCapture := fun _ => false
  pawnTo27 := fun _ => false
  tsq := fun _ => 17
  isCastle := fun _ => false
  lmr := fun _ _ _ => 0
  histLimit := 100

/-- Environment for the aspiration counterexamples: every kernel call
returns 0. -/
def envWiden0 : Env := mkEnv 0 999 (fun _ => none)

/-- Environment whose kernel calls all return the deep fail-low mate score
-30000. -/
def envWidenM : Env := mkEnv (-30000) 999 (fun _ => none)

/-- Environment whose kernel calls all return 1000, a score outside every
narrowed aspiration window around 20 but below `MAX_EVAL`. -/
def envWiden1000 : Env := mkEnv 1000 999 (fun _ => none)

/-- Root frame with a stale pv head and a single move that fails low
(score 5 against the window [12, 28]). -/
def envRootFailLow : Env := mkEnv (-5) 4 (fun _ => none)

/-- Same frame shape, used for claim C9's witness. -/
def envRootFailLow9 : Env := mkEnv (-5) 4 (fun _ => none)

/-- Root frame at depth 7 without a hash move: internal iterative deepening
fires and its buffer-sharing sub-search rewrites the pv head to 99; the
single real move then fails low. -/
def envIidWrite : Env := mkEnv (-5) 6 (fun n => if n = 4 then some 99 else none)

/-- A ply-1 frame with one move that raises alpha (score 10) and then a
completed loop: the frame ends in an EXACT store. -/
def envExactStore : Env := mkEnv (-10) 4 (fun _ => none)

/-- The abort flag is already up when the frame starts. -/
def envAborted : Env := { mkEnv 0 4 (fun _ => none) with abort := fun _ => true }

/-- The position is a rule draw. -/
def envDrawn : Env := { mkEnv 0 4 (fun _ => none) with isDraw := fun _ => true }

/-- A frame whose move generator is empty (no legal move). -/
def envNoMoves : Env := mkEnv 0 999 (fun _ => none)

/-- Plain environment for the mate-distance-pruning witness. -/
def envMdp : Env := mkEnv 0 4 (fun _ => none)

/-- Classifier: transposition-store events. -/
def Ev.isStore : Ev → Bool
  | .ttStore _ _ _ _ _ => true
  | _ => false

/-- Classifier: EXACT transposition-store events. -/
def Ev.isExactStore : Ev → Bool
  | .ttStore _ _ Bound.exact _ _ => true
  | _ => false

/-- Classifier: events that write the frame's pv-buffer head (a
`BuildPv` by this frame or a write by a buffer-sharing callee). -/
def Ev.isPvTouch : Ev → Bool
  | .buildPv _ => true
  | .pvWrite _ => true
  | _ => false

/-- No transposition store occurs in a trace. -/
def noStoreE (tr : List Ev) : Prop := ∀ e ∈ tr, e.isStore = false

/-- No EXACT transposition store occurs in a trace. -/
def noExactE (tr : List Ev) : Prop := ∀ e ∈ tr, e.isExactStore = false

/-- Nothing in a trace wrote the frame's pv-buffer head. -/
def noPvTouch (tr : List Ev) : Prop := ∀ e ∈ tr, e.isPvTouch = false

/-- The move-loop invariant behind the EXACT-store bounds: the running
alpha never drops below the entry alpha `a0`, `best` is `-INF` or below
beta, and a nonzero pv head certifies a move that raised alpha above the
entry alpha. -/
def Inv (a0 beta alpha best pvHead : Int) : Prop :=
  a0 ≤ alpha ∧ (best = -INF ∨ best < beta) ∧ (pvHead ≠ 0 → a0 < best)

/-- One event respects the EXACT-store bounds: if it is an EXACT
transposition store, its score lies strictly inside `(a0, b)`. -/
def evExactOk (a0 b : Int) (e : Ev) : Prop :=
  ∀ m s d p, e = Ev.ttStore m s Bound.exact d p → a0 < s ∧ s < b

/-- Every EXACT transposition store of a trace has its score strictly
inside `(a0, b)`. -/
def ExactOk (a0 b : Int) (tr : List Ev) : Prop := ∀ e ∈ tr, evExactOk a0 b e

/-- The frame-exit facts tracked through the move loop: every EXACT store
obeys the `(a0, beta)` bounds; a no-legal-move exit is store-free and
returns the mate-in-ply or draw score read from the oracle; and if nothing
in the exit trace wrote the pv head, the pv head is the one the loop
started from. -/
def MainInl (c : LCtx) (a0 pvh : Int) (tr : List Ev) (o : Out) : Prop :=
  ExactOk a0 c.beta o.trace ∧
  (o.tag = ExitTag.noLegal → noStoreE o.trace ∧ ∃ k,
     (c.env.inCheck k = true ∧ o.res = some (-MATE + c.ply)) ∨
     (c.env.inCheck k = false ∧ o.res = some (c.env.drawScore (k + 1)))) ∧
  (noPvTouch o.trace → o.pvHead = pvh ∧ noPvTouch tr)

/-- The loop-state facts preserved by every step of one loop iteration:
the invariant `Inv`, the absence of stores in the running trace, and the
pv-head tracking. -/
def MainInr (c : LCtx) (a0 pvh : Int) (tr : List Ev) (st2 : LoopSt) : Prop :=
  Inv a0 c.beta st2.alpha st2.best st2.pvHead ∧ noStoreE st2.trace ∧
  (noPvTouch st2.trace → st2.pvHead = pvh ∧ noPvTouch tr)

/-- No successful abort poll (an `abortCheck true` event) occurs in a
trace. -/
def trNoTrue (tr : List Ev) : Prop := Ev.abortCheck true ∉ tr

/-- A successful abort poll, if any, is the last event of the trace, and
the result is then the dummy score 0. -/
def AbortLast (tr : List Ev) (res : Option Int) : Prop :=
  ∀ a b, tr = a ++ Ev.abortCheck true :: b → b = [] ∧ res = some 0

/-! # Theorems -/

/-- The raw LMR reduction is never negative: in the formula branch both
logarithm factors are logarithms of naturals that are at least 1. -/
theorem lmrR_nonneg (dp mv : ℕ) : 0 ≤ lmrR dp mv := by
  unfold lmrR
  split
  · rename_i h
    apply Int.le_floor.mpr
    push_cast
    apply div_nonneg _ (by norm_num)
    apply mul_nonneg
    · exact Real.log_nonneg (by exact_mod_cast Nat.one_le_iff_ne_zero.mpr h.1)
    · refine Real.log_nonneg ?_
      have h1 : 1 ≤ mv := Nat.one_le_iff_ne_zero.mpr h.2
      have h2 : (1 : ℕ) ≤ min mv 63 := le_min h1 (by norm_num)
      exact_mod_cast h2
  · exact le_refl 0

/-- C3, counterexample: the claimed lower bound `0 ≤ msLmrSize[k][d][m]`
fails.  At `k = 0, d = 0, m = 0` the raw value `r = 0` is clamped to
`d - 1 = -1`; likewise the PV entry at `d = 1, m = 1` stores `r - 1 = -1`
(`ln 1 = 0`). -/
theorem C3_lmr_counterexample :
    msLmrSize 0 0 0 = -1 ∧ ¬ (0 ≤ msLmrSize 0 0 0) ∧ msLmrSize 1 1 1 = -1 := by
  have h1 : msLmrSize 0 0 0 = -1 := by
    unfold msLmrSize lmrR
    norm_num
  have h2 : msLmrSize 1 1 1 = -1 := by
    unfold msLmrSize lmrR
    norm_num [Real.log_one]
  refine ⟨h1, by omega, h2⟩

/-- C3, amended: after `InitSearch`, every LMR table entry satisfies
`-1 ≤ msLmrSize[k][d][m] ≤ max 0 (d - 1)` (the claimed upper bound holds;
the claimed lower bound 0 must be weakened to -1, reached by PV entries
with raw reduction 0 and by the whole `d = 0` slice). -/
theorem C3_lmr_bounds (k : Fin 2) (dp mv : ℕ) :
    -1 ≤ msLmrSize k dp mv ∧ msLmrSize k dp mv ≤ max 0 ((dp : Int) - 1) := by
  have h0 := lmrR_nonneg dp mv
  have hdp : (0 : Int) ≤ (dp : Int) := Int.natCast_nonneg dp
  have hmax : ((dp : Int) - 1) ≤ max 0 ((dp : Int) - 1) := le_max_right _ _
  have hmax0 : (0 : Int) ≤ max 0 ((dp : Int) - 1) := le_max_left _ _
  unfold msLmrSize
  dsimp only
  constructor
  · split <;> split <;> omega
  · split <;> split <;> omega

/-- C3 has no hypotheses beyond its universally quantified indices, but we
record a closed instance evaluating the bounds at a concrete index. -/
theorem C3_lmr_bounds_witness :
    -1 ≤ msLmrSize 1 1 1 ∧ msLmrSize 1 1 1 ≤ max 0 ((1 : Int) - 1) :=
  C3_lmr_bounds 1 1 1

/-- C10: `POS::DrawScore` is side-asymmetric — it returns
`-Par.draw_score` when the side to move is the program's side and
`+Par.draw_score` otherwise, so for a nonzero `draw_score` the two sides
receive different draw scores; and a `Search` frame at a rule-draw
position with `ply > 0` returns exactly this oracle draw score. -/
theorem C10_drawscore (mSide progSide ds : Int) :
    (mSide = progSide → DrawScore mSide progSide ds = -ds) ∧
    (mSide ≠ progSide → DrawScore mSide progSide ds = ds) ∧
    (ds ≠ 0 → DrawScore progSide progSide ds ≠ DrawScore (progSide + 1) progSide ds) ∧
    (∀ (env : Env) (fuel : ℕ) (ply alpha beta depth : Int) (wasNull : Bool)
       (lastMove lastCaptSq rd : Int) (n : ℕ) (pos : List PosOp) (pv : Int),
       0 < depth → ¬ (env.abort n = true ∧ rd > 1) →
       env.isDraw (n + 1) = true → ply ≠ 0 →
       (Search env fuel ply alpha beta depth wasNull lastMove lastCaptSq rd n pos pv).res
         = some (env.drawScore (n + 1 + 1))) := by
  refine ⟨?_, ?_, ?_, ?_⟩
  · intro h; simp [DrawScore, h]
  · intro h; simp [DrawScore, h]
  · intro h
    unfold DrawScore
    rw [if_pos rfl, if_neg (by omega : ¬ progSide + 1 = progSide)]
    omega
  · intro env fuel ply alpha beta depth wasNull lastMove lastCaptSq rd n pos pv
      hd hab hdr hply
    unfold Search entryStage
    simp only [if_neg (by omega : ¬ depth ≤ 0), if_neg hab, hdr, hply, ne_eq,
      not_false_eq_true, and_self, if_true, if_pos]

/-- C10, witness: a concrete program-side draw score and a concrete drawn
frame. -/
theorem C10_drawscore_witness :
    DrawScore 3 3 5 = -5 ∧
    (Search envDrawn 5 1 (-50) 50 2 false (-1) (-1) 1 0 [] 55).res
      = some (envDrawn.drawScore 2) :=
  ⟨(C10_drawscore 3 3 5).1 rfl,
   (C10_drawscore 3 3 5).2.2.2 envDrawn 5 1 (-50) 50 2 false (-1) (-1) 1 0 [] 55
     (by norm_num) (by decide) (by decide) (by decide)⟩

/-- Helper: one aspiration iteration that fails outside its window without
an abort and without a fail-high mate score continues with the doubled
margin. -/
theorem widenLoop_cont (env : Env) (lastScore : Int) (margin n fuel : ℕ)
    (hm : margin < 500)
    (hab : env.abort (n + 1) = false)
    (hout : env.searchRes n ≤ lastScore - (margin : Int) ∨
            lastScore + (margin : Int) ≤ env.searchRes n)
    (hme : env.searchRes n ≤ MAX_EVAL) :
    widenLoop env lastScore margin n (fuel + 1) =
      ⟨(widenLoop env lastScore (margin * 2) (n + 2) fuel).res,
       (widenLoop env lastScore (margin * 2) (n + 2) fuel).n,
       (lastScore - (margin : Int), lastScore + (margin : Int)) ::
         (widenLoop env lastScore (margin * 2) (n + 2) fuel).windows⟩ := by
  conv_lhs => rw [widenLoop]
  have h2 : ¬ (env.searchRes n > lastScore - (margin : Int) ∧
               env.searchRes n < lastScore + (margin : Int)) := by omega
  have h3 : ¬ (env.searchRes n > MAX_EVAL) := by omega
  simp only [if_pos hm, hab, Bool.false_eq_true, if_false, if_neg h2, if_neg h3]

/-- Helper: once the margin reaches 500 the loop exits to the full-window
search. -/
theorem widenLoop_full (env : Env) (lastScore : Int) (margin n fuel : ℕ)
    (hm : ¬ margin < 500) :
    widenLoop env lastScore margin n (fuel + 1) =
      ⟨env.searchRes n, n + 1, [(-INF, INF)]⟩ := by
  conv_lhs => rw [widenLoop]
  rw [if_neg hm]

/-- C4, counterexample: the claim's entry condition `|lastScore| ≤ MAX_EVAL`
and its break condition `|score| > MAX_EVAL` are both refuted — the code
compares signed values.  With `lastScore = -30000` (a fail-low mate score
whose magnitude exceeds `MAX_EVAL`) the loop is entered, so more than the
single full-window call is made; and with a kernel that keeps returning
-30000 the loop runs all its margins instead of breaking to the full
window after the first call. -/
theorem C4_widen_counterexample :
    MAX_EVAL < |(-30000 : Int)| ∧
    (Widen envWiden0 7 (-30000) 0).windows ≠ [(-INF, INF)] ∧
    MAX_EVAL < |envWidenM.searchRes 0| ∧
    (Widen envWidenM 7 20 0).windows ≠ [(20 - 8, 20 + 8), (-INF, INF)] := by
  refine ⟨by norm_num [MAX_EVAL], by decide, ?_, by decide⟩
  show MAX_EVAL < |(-30000 : Int)|
  norm_num [MAX_EVAL]

/-- C4, amended: `Widen` enters the aspiration loop exactly when
`depth > 6` and `lastScore < MAX_EVAL` (signed comparison, so deeply
negative mate scores also enter, and `lastScore = MAX_EVAL` does not); the
windows are `[lastScore - m, lastScore + m]` for margins 8, 16, 32, 64,
128, 256; the score is returned when strictly inside the window; the loop
breaks to the full-window search on abort or when the score exceeds
`MAX_EVAL` (fail-high side only); otherwise it falls through to a single
`[-INF, INF]` search.  Proved as equality with a definition transcribed
from that description. -/
theorem C4_widen_amended (env : Env) (depth lastScore : Int) (n : ℕ) :
    Widen env depth lastScore n = WidenAmendedSpec env depth lastScore n := by
  rfl

/-- C5, amended: from `lastScore = 20` at `depth > 6`, when every narrowed
call returns a score outside its window that does not exceed `MAX_EVAL`
and no abort occurs, the windows passed to the kernel are exactly
`[12, 28], [4, 36], [-12, 52], [-44, 84], [-108, 148], [-236, 276]` and
then `[-INF, INF]` — margin doubling from 8 while below 500 produces the
margin 256 window `[-236, 276]`, not the claimed `[-220, 260]`. -/
theorem C5_widen_windows (env : Env) (depth : Int) (hd : depth > 6)
    (hab : ∀ k : ℕ, env.abort k = false)
    (hs : ∀ k : ℕ, k ≤ 5 →
      (env.searchRes (2 * k) ≤ 20 - (8 * 2 ^ k : ℕ) ∨
       (20 : Int) + (8 * 2 ^ k : ℕ) ≤ env.searchRes (2 * k)) ∧
      env.searchRes (2 * k) ≤ MAX_EVAL) :
    (Widen env depth 20 0).windows =
      [(12, 28), (4, 36), (-12, 52), (-44, 84), (-108, 148), (-236, 276),
       (-INF, INF)] := by
  have h0 := hs 0 (by norm_num)
  have h1 := hs 1 (by norm_num)
  have h2 := hs 2 (by norm_num)
  have h3 := hs 3 (by norm_num)
  have h4 := hs 4 (by norm_num)
  have h5 := hs 5 (by norm_num)
  norm_num at h0 h1 h2 h3 h4 h5
  unfold Widen
  rw [if_pos ⟨hd, by norm_num [MAX_EVAL]⟩]
  rw [widenLoop_cont env 20 8 0 6 (by norm_num) (hab 1) (by push_cast; omega) (by exact h0.2)]
  rw [widenLoop_cont env 20 16 2 5 (by norm_num) (hab 3) (by push_cast; omega) (by exact h1.2)]
  rw [widenLoop_cont env 20 32 4 4 (by norm_num) (hab 5) (by push_cast; omega) (by exact h2.2)]
  rw [widenLoop_cont env 20 64 6 3 (by norm_num) (hab 7) (by push_cast; omega) (by exact h3.2)]
  rw [widenLoop_cont env 20 128 8 2 (by norm_num) (hab 9) (by push_cast; omega) (by exact h4.2)]
  rw [widenLoop_cont env 20 256 10 1 (by norm_num) (hab 11) (by push_cast; omega) (by exact h5.2)]
  rw [widenLoop_full env 20 512 12 0 (by norm_num)]
  norm_num

/-- C5, witness: a kernel stuck at score 1000 fails outside every narrowed
window around 20 and stays below `MAX_EVAL`, so the amended window
sequence is realized. -/
theorem C5_widen_windows_witness :
    (Widen envWiden1000 10 20 0).windows =
      [(12, 28), (4, 36), (-12, 52), (-44, 84), (-108, 148), (-236, 276),
       (-INF, INF)] :=
  C5_widen_windows envWiden1000 10 (by norm_num) (fun _ => rfl)
    (by
      intro k hk
      interval_cases k <;> constructor <;> norm_num [envWiden1000, mkEnv, MAX_EVAL])

/-- C5, counterexample: in that very run the window `[-44, 84]` does occur
but the claimed window `[-220, 260]` never does — margin doubling from 8
yields 256, giving `[-236, 276]`. -/
theorem C5_widen_counterexample :
    ((-44 : Int), (84 : Int)) ∈ (Widen envWiden1000 10 20 0).windows ∧
    ((-220 : Int), (260 : Int)) ∉ (Widen envWiden1000 10 20 0).windows := by
  decide

/-- Helper: every early exit of the entry stage leaves the position stack
untouched. -/
theorem entryStage_inl_pos {env : Env} {ply alpha beta rd : Int} {isPv : Bool}
    {n : ℕ} {pos : List PosOp} {pv : Int} {o : Out} :
    entryStage env ply alpha beta rd isPv n pos pv = Sum.inl o → o.pos = pos := by
  simp only [entryStage]
  repeat' split
  all_goals intro ho
  all_goals first
    | (cases ho; rfl)
    | cases ho

/-- Helper: every exit of the null-move verification leaves the (already
restored) position stack untouched. -/
theorem nullVerify_inl_pos {env : Env} {ply alpha beta : Int}
    {newDepth score1 move1 refSq rd : Int} {n : ℕ} {tr : List Ev}
    {pos : List PosOp} {pv : Int} {o : Out} :
    nullVerify env ply alpha beta newDepth score1 move1 refSq rd n tr pos pv
      = Sum.inl o → o.pos = pos := by
  simp only [nullVerify]
  repeat' split
  all_goals intro ho
  all_goals first
    | (cases ho; rfl)
    | cases ho

/-- Helper: every exit of the null-block tail leaves the position stack
untouched. -/
theorem nullFinish_inl_pos {env : Env} {ply alpha beta : Int}
    {newDepth score1 move1 refSq rd : Int} {n : ℕ} {tr : List Ev}
    {pos : List PosOp} {pv : Int} {o : Out} :
    nullFinish env ply alpha beta newDepth score1 move1 refSq rd n tr pos pv
      = Sum.inl o → o.pos = pos := by
  simp only [nullFinish]
  repeat' split
  all_goals intro ho
  all_goals first
    | (exact nullVerify_inl_pos ho)
    | cases ho

/-- Helper: every exit of the null search restores the position stack (the
null move is undone before each of them). -/
theorem nullRun_inl_pos {env : Env} {ply alpha beta rd : Int}
    {newDepth move1 : Int} {n : ℕ} {tr : List Ev} {pos : List PosOp}
    {pv : Int} {o : Out} :
    nullRun env ply alpha beta rd newDepth move1 n tr pos pv = Sum.inl o →
      o.pos = pos := by
  simp only [nullRun]
  repeat' split
  all_goals intro ho
  all_goals first
    | (cases ho; rfl)
    | (exact nullFinish_inl_pos ho)
    | cases ho

/-- Helper: every exit of the null-move block restores the position
stack. -/
theorem nullBlock_inl_pos {env : Env} {ply depth : Int} {wasNull : Bool}
    {alpha beta evalv rd : Int} {flPrunable : Bool} {n : ℕ} {tr : List Ev}
    {pos : List PosOp} {pv move : Int} {o : Out} :
    nullBlock env ply depth wasNull alpha beta evalv rd flPrunable n tr pos pv move
      = Sum.inl o → o.pos = pos := by
  simp only [nullBlock]
  repeat' split
  all_goals intro ho
  all_goals first
    | (cases ho; rfl)
    | (exact nullRun_inl_pos ho)
    | cases ho

/-- Helper: the razoring exit leaves the position stack untouched. -/
theorem razorStage_inl_pos {env : Env} {ply depth : Int} {wasNull : Bool}
    {beta evalv move : Int} {flPrunable : Bool} {n : ℕ} {tr : List Ev}
    {pos : List PosOp} {pv : Int} {o : Out} :
    razorStage env ply depth wasNull beta evalv move flPrunable n tr pos pv
      = Sum.inl o → o.pos = pos := by
  simp only [razorStage]
  repeat' split
  all_goals intro ho
  all_goals first
    | (cases ho; rfl)
    | cases ho

/-- Helper: every early exit of the pre-loop continuation leaves the
position stack untouched. -/
theorem preCont_inl_pos {env : Env} {ply depth : Int} {wasNull isPv : Bool}
    {lastMove lastCaptSq rd : Int} {pos : List PosOp}
    {alpha beta move pvHead : Int} {tr : List Ev} {flCheck flPrunable : Bool}
    {evalv : Int} {n : ℕ} {o : Out} :
    preCont env ply depth wasNull isPv lastMove lastCaptSq rd pos
        alpha beta move pvHead tr flCheck flPrunable evalv n = Sum.inl o →
      o.pos = pos := by
  simp only [preCont]
  repeat' split
  all_goals intro ho
  all_goals first
    | (cases ho; rfl)
    | (cases ho; exact nullBlock_inl_pos (by assumption))
    | (cases ho; exact razorStage_inl_pos (by assumption))
    | cases ho

/-- Helper: every early exit of the pre-loop stage leaves the position
stack untouched. -/
theorem preStage_inl_pos {env : Env} {ply depth : Int} {wasNull isPv : Bool}
    {lastMove lastCaptSq rd : Int} {pos : List PosOp} {st : EntrySt} {o : Out} :
    preStage env ply depth wasNull isPv lastMove lastCaptSq rd pos st = Sum.inl o →
      o.pos = pos := by
  simp only [preStage]
  repeat' split
  all_goals intro ho
  all_goals exact preCont_inl_pos ho

/-- Helper: the terminal stage reports the caller's position stack. -/
theorem finStage_pos {env : Env} {ply depth : Int} {flCheck : Bool}
    {pos : List PosOp} {st : LoopSt} :
    (finStage env ply depth flCheck pos st).pos = pos := by
  simp only [finStage]
  repeat' split
  all_goals rfl

/-- Helper: the unmake tail of one loop iteration pops exactly the made
move: every frame exit it takes and every continued loop state carries
`ps.tail`, the stack after the `UndoMove`. -/
theorem stepUndo_pos {c : LCtx} {move : Int} {flFut : Bool}
    {mvTried quietTried : ℕ} {alpha best pvHead : Int} {tr : List Ev} {ps : List PosOp}
    {score : Int} {n : ℕ} :
    (∀ o, stepUndo c move flFut mvTried quietTried alpha best pvHead tr ps score n
        = Sum.inl o → o.pos = ps.tail) ∧
    (∀ st2, stepUndo c move flFut mvTried quietTried alpha best pvHead tr ps score n
        = Sum.inr st2 → st2.pos = ps.tail) := by
  constructor
  all_goals intro x hx
  all_goals simp only [stepUndo] at hx
  all_goals repeat' split at hx
  all_goals cases hx
  all_goals rfl

/-- Helper: the PVS block hands the stack on to the unmake unchanged. -/
theorem stepPvs_pos {c : LCtx} {move mvType : Int} {flFut : Bool}
    {mvHist : Int} {mvTried quietTried : ℕ} {alpha best pvHead : Int}
    {tr : List Ev} {ps : List PosOp} {red nd : Int} {n : ℕ} :
    (∀ o, stepPvs c move mvType flFut mvHist mvTried quietTried alpha best pvHead tr ps red nd n
        = Sum.inl o → o.pos = ps.tail) ∧
    (∀ st2, stepPvs c move mvType flFut mvHist mvTried quietTried alpha best pvHead tr ps red nd n
        = Sum.inr st2 → st2.pos = ps.tail) := by
  constructor
  all_goals intro x hx
  all_goals simp only [stepPvs] at hx
  all_goals split at hx
  all_goals first
    | (exact stepUndo_pos.1 x hx)
    | (exact stepUndo_pos.2 x hx)

/-- Helper: LMR 2 hands the stack on unchanged. -/
theorem stepLmr2_pos {c : LCtx} {move mvType : Int} {flFut : Bool}
    {mvHist : Int} {mvTried quietTried : ℕ} {alpha best pvHead : Int}
    {tr : List Ev} {ps : List PosOp} {red nd : Int} {n : ℕ} :
    (∀ o, stepLmr2 c move mvType flFut mvHist mvTried quietTried alpha best pvHead tr ps red nd n
        = Sum.inl o → o.pos = ps.tail) ∧
    (∀ st2, stepLmr2 c move mvType flFut mvHist mvTried quietTried alpha best pvHead tr ps red nd n
        = Sum.inr st2 → st2.pos = ps.tail) := by
  constructor
  all_goals intro x hx
  all_goals simp only [stepLmr2] at hx
  all_goals repeat' split at hx
  all_goals first
    | (exact stepPvs_pos.1 x hx)
    | (exact stepPvs_pos.2 x hx)

/-- Helper: the LMR 1 tail hands the stack on unchanged. -/
theorem stepLmr1c_pos {c : LCtx} {move mvType : Int} {flFut : Bool}
    {mvHist : Int} {mvTried quietTried : ℕ} {alpha best pvHead : Int}
    {tr : List Ev} {ps : List PosOp} {red2 nd : Int} {n : ℕ} :
    (∀ o, stepLmr1c c move mvType flFut mvHist mvTried quietTried alpha best pvHead tr ps red2 nd n
        = Sum.inl o → o.pos = ps.tail) ∧
    (∀ st2, stepLmr1c c move mvType flFut mvHist mvTried quietTried alpha best pvHead tr ps red2 nd n
        = Sum.inr st2 → st2.pos = ps.tail) := by
  constructor
  all_goals intro x hx
  all_goals simp only [stepLmr1c] at hx
  all_goals repeat' split at hx
  all_goals first
    | (exact stepLmr2_pos.1 x hx)
    | (exact stepLmr2_pos.2 x hx)

/-- Helper: LMR 1 hands the stack on unchanged. -/
theorem stepLmr1_pos {c : LCtx} {move mvType : Int} {flFut : Bool}
    {mvHist : Int} {mvTried quietTried : ℕ} {alpha best pvHead : Int}
    {tr : List Ev} {ps : List PosOp} {sherwinFlag : Bool} {nd : Int} {n : ℕ} :
    (∀ o, stepLmr1 c move mvType flFut mvHist mvTried quietTried alpha best pvHead tr ps sherwinFlag nd n
        = Sum.inl o → o.pos = ps.tail) ∧
    (∀ st2, stepLmr1 c move mvType flFut mvHist mvTried quietTried alpha best pvHead tr ps sherwinFlag nd n
        = Sum.inr st2 → st2.pos = ps.tail) := by
  constructor
  all_goals intro x hx
  all_goals simp only [stepLmr1] at hx
  all_goals repeat' split at hx
  all_goals first
    | (exact stepLmr1c_pos.1 x hx)
    | (exact stepLmr1c_pos.2 x hx)
    | (exact stepLmr2_pos.1 x hx)
    | (exact stepLmr2_pos.2 x hx)

/-- Helper: the sherwin probe hands the stack on unchanged. -/
theorem stepSher_pos {c : LCtx} {move mvType : Int} {flFut : Bool}
    {mvHist : Int} {mvTried quietTried : ℕ} {alpha best pvHead : Int}
    {tr : List Ev} {ps : List PosOp} {nd : Int} {n : ℕ} :
    (∀ o, stepSher c move mvType flFut mvHist mvTried quietTried alpha best pvHead tr ps nd n
        = Sum.inl o → o.pos = ps.tail) ∧
    (∀ st2, stepSher c move mvType flFut mvHist mvTried quietTried alpha best pvHead tr ps nd n
        = Sum.inr st2 → st2.pos = ps.tail) := by
  constructor
  all_goals intro x hx
  all_goals simp only [stepSher] at hx
  all_goals repeat' split at hx
  all_goals first
    | (exact stepLmr1_pos.1 x hx)
    | (exact stepLmr1_pos.2 x hx)

/-- Helper: late-move pruning pops the made move on its continue and
otherwise hands the stack on unchanged. -/
theorem stepLmp_pos {c : LCtx} {move mvType : Int} {flFut : Bool}
    {mvHist : Int} {mvTried quietTried : ℕ} {alpha best pvHead : Int}
    {tr : List Ev} {ps : List PosOp} {nd : Int} {n : ℕ} :
    (∀ o, stepLmp c move mvType flFut mvHist mvTried quietTried alpha best pvHead tr ps nd n
        = Sum.inl o → o.pos = ps.tail) ∧
    (∀ st2, stepLmp c move mvType flFut mvHist mvTried quietTried alpha best pvHead tr ps nd n
        = Sum.inr st2 → st2.pos = ps.tail) := by
  constructor
  all_goals intro x hx
  all_goals simp only [stepLmp] at hx
  all_goals repeat' split at hx
  all_goals first
    | (exact stepSher_pos.1 x hx)
    | (exact stepSher_pos.2 x hx)
    | (cases hx
       rfl)
    | cases hx

/-- Helper: futility pruning pops the made move on its continue and
otherwise hands the stack on unchanged. -/
theorem stepFut_pos {c : LCtx} {move mvType : Int} {flFut : Bool}
    {mvHist : Int} {mvTried quietTried : ℕ} {alpha best pvHead : Int}
    {tr : List Ev} {ps : List PosOp} {nd : Int} {n : ℕ} :
    (∀ o, stepFut c move mvType flFut mvHist mvTried quietTried alpha best pvHead tr ps nd n
        = Sum.inl o → o.pos = ps.tail) ∧
    (∀ st2, stepFut c move mvType flFut mvHist mvTried quietTried alpha best pvHead tr ps nd n
        = Sum.inr st2 → st2.pos = ps.tail) := by
  constructor
  all_goals intro x hx
  all_goals simp only [stepFut] at hx
  all_goals repeat' split at hx
  all_goals first
    | (exact stepLmp_pos.1 x hx)
    | (exact stepLmp_pos.2 x hx)
    | (cases hx
       rfl)
    | cases hx

/-- Helper: the extension steps hand the stack on unchanged. -/
theorem stepExtB_pos {c : LCtx} {move mvType : Int} {flFut : Bool}
    {mvHist : Int} {mvTried quietTried : ℕ} {alpha best pvHead : Int}
    {tr : List Ev} {ps : List PosOp} {nd1 : Int} {n : ℕ} :
    (∀ o, stepExtB c move mvType flFut mvHist mvTried quietTried alpha best pvHead tr ps nd1 n
        = Sum.inl o → o.pos = ps.tail) ∧
    (∀ st2, stepExtB c move mvType flFut mvHist mvTried quietTried alpha best pvHead tr ps nd1 n
        = Sum.inr st2 → st2.pos = ps.tail) := by
  constructor
  all_goals intro x hx
  all_goals simp only [stepExtB] at hx
  all_goals repeat' split at hx
  all_goals first
    | (exact stepFut_pos.1 x hx)
    | (exact stepFut_pos.2 x hx)

/-- Helper: the check-extension step hands the stack on unchanged. -/
theorem stepExtA_pos {c : LCtx} {move mvType : Int} {flFut : Bool}
    {mvHist : Int} {mvTried quietTried : ℕ} {alpha best pvHead : Int}
    {tr : List Ev} {ps : List PosOp} {n : ℕ} :
    (∀ o, stepExtA c move mvType flFut mvHist mvTried quietTried alpha best pvHead tr ps n
        = Sum.inl o → o.pos = ps.tail) ∧
    (∀ st2, stepExtA c move mvType flFut mvHist mvTried quietTried alpha best pvHead tr ps n
        = Sum.inr st2 → st2.pos = ps.tail) := by
  constructor
  all_goals intro x hx
  all_goals simp only [stepExtA] at hx
  all_goals repeat' split at hx
  all_goals first
    | (exact stepExtB_pos.1 x hx)
    | (exact stepExtB_pos.2 x hx)

/-- Helper: one loop iteration restores the position stack on every frame
exit and every continue: the `DoMove` push is popped again by the paired
`UndoMove` (the illegal skip, the prune continues, the unmake tail), and
the terminal stage reports the loop state’s stack. -/
theorem loopBody_pos {c : LCtx} {st : LoopSt} :
    (∀ o, loopBody c st = Sum.inl o → o.pos = st.pos) ∧
    (∀ st2, loopBody c st = Sum.inr st2 → st2.pos = st.pos) := by
  constructor
  all_goals intro x hx
  all_goals simp only [loopBody] at hx
  all_goals repeat' split at hx
  all_goals first
    | (cases hx
       exact finStage_pos)
    | (exact stepExtA_pos.1 x hx)
    | (exact stepExtA_pos.2 x hx)
    | (cases hx
       rfl)
    | cases hx

/-- Helper: the whole move loop preserves the position stack of the loop
state it starts from. -/
theorem loopStage_pos (c : LCtx) :
    ∀ (fuel : ℕ) (st : LoopSt), (loopStage c fuel st).pos = st.pos := by
  intro fuel
  induction fuel with
  | zero => intro st; rfl
  | succ f ih =>
    intro st
    rcases hb : loopBody c st with o | st2
    · simp only [loopStage, hb]
      exact loopBody_pos.1 o hb
    · simp only [loopStage, hb]
      exact (ih st2).trans (loopBody_pos.2 st2 hb)

/-- Helper: one kernel frame always restores the position stack. -/
theorem search_pos (env : Env) (fuel : ℕ) (ply alpha beta depth : Int)
    (wasNull : Bool) (lastMove lastCaptSq rd : Int) (n : ℕ) (pos : List PosOp)
    (pv : Int) :
    (Search env fuel ply alpha beta depth wasNull lastMove lastCaptSq rd n pos pv).pos
      = pos := by
  unfold Search
  split
  · rfl
  · rcases he : entryStage env ply alpha beta rd (decide (alpha ≠ beta - 1)) n pos pv
      with o | st
    · simp only [he]
      exact entryStage_inl_pos he
    · simp only [he]
      rcases hp : preStage env ply depth wasNull (decide (alpha ≠ beta - 1)) lastMove lastCaptSq rd pos st
        with o2 | mid
      · simp only [hp]
        exact preStage_inl_pos hp
      · simp only [hp]
        exact loopStage_pos
          ⟨env, ply, mid.beta, depth, decide (alpha ≠ beta - 1), mid.flCheck, mid.flPrunable,
           mid.didNull, mid.evalv, lastCaptSq, rd⟩ fuel
          ⟨mid.n, mid.trace, mid.pvHead, mid.alpha, -INF, false, 0, 0, pos⟩

/-- Helper: the entry stage never exits through mate-distance pruning at
the root. -/
theorem entry_no_mdp_at_root {env : Env} {ply alpha beta rd : Int} {isPv : Bool}
    {n : ℕ} {pos : List PosOp} {pv : Int} (hply : ply = 0) :
    ∀ o, entryStage env ply alpha beta rd isPv n pos pv = Sum.inl o →
      o.tag ≠ ExitTag.mdpAlpha ∧ o.tag ≠ ExitTag.mdpBeta := by
  intro o
  simp only [entryStage]
  repeat' split
  all_goals intro ho
  all_goals try cases ho
  all_goals constructor <;> simp_all

/-- Helper: exit tags of the null-move verification. -/
theorem nullVerify_tags {env : Env} {ply alpha beta : Int}
    {newDepth score1 move1 refSq rd : Int} {n : ℕ} {tr : List Ev}
    {pos : List PosOp} {pv : Int} :
    ∀ o, nullVerify env ply alpha beta newDepth score1 move1 refSq rd n tr pos pv
      = Sum.inl o → o.tag = ExitTag.nullVerAbort ∨ o.tag = ExitTag.nullCut := by
  intro o
  simp only [nullVerify]
  repeat' split
  all_goals intro ho
  all_goals first
    | (cases ho; simp)
    | cases ho

/-- Helper: exit tags of the null-block tail. -/
theorem nullFinish_tags {env : Env} {ply alpha beta : Int}
    {newDepth score1 move1 refSq rd : Int} {n : ℕ} {tr : List Ev}
    {pos : List PosOp} {pv : Int} :
    ∀ o, nullFinish env ply alpha beta newDepth score1 move1 refSq rd n tr pos pv
      = Sum.inl o → o.tag = ExitTag.nullVerAbort ∨ o.tag = ExitTag.nullCut := by
  intro o
  simp only [nullFinish]
  repeat' split
  all_goals intro ho
  all_goals first
    | (exact nullVerify_tags _ ho)
    | cases ho

/-- Helper: exit tags of the null search. -/
theorem nullRun_tags {env : Env} {ply alpha beta rd : Int}
    {newDepth move1 : Int} {n : ℕ} {tr : List Ev} {pos : List PosOp} {pv : Int} :
    ∀ o, nullRun env ply alpha beta rd newDepth move1 n tr pos pv = Sum.inl o →
      o.tag = ExitTag.nullVerAbort ∨ o.tag = ExitTag.nullCut ∨ o.tag = ExitTag.nullAbort := by
  intro o
  simp only [nullRun]
  repeat' split
  all_goals intro ho
  all_goals first
    | (cases ho; simp)
    | (rcases nullFinish_tags _ ho with h | h <;> simp [h])
    | cases ho

/-- Helper: exit tags of the null-move block. -/
theorem nullBlock_tags {env : Env} {ply depth : Int} {wasNull : Bool}
    {alpha beta evalv rd : Int} {flPrunable : Bool} {n : ℕ} {tr : List Ev}
    {pos : List PosOp} {pv move : Int} :
    ∀ o, nullBlock env ply depth wasNull alpha beta evalv rd flPrunable n tr pos pv move
      = Sum.inl o →
      o.tag = ExitTag.nullVerAbort ∨ o.tag = ExitTag.nullCut ∨ o.tag = ExitTag.nullAbort := by
  intro o
  simp only [nullBlock]
  repeat' split
  all_goals intro ho
  all_goals first
    | (exact nullRun_tags _ ho)
    | cases ho

/-- Helper: the razoring stage only exits with the razor tag. -/
theorem razorStage_tags {env : Env} {ply depth : Int} {wasNull : Bool}
    {beta evalv move : Int} {flPrunable : Bool} {n : ℕ} {tr : List Ev}
    {pos : List PosOp} {pv : Int} :
    ∀ o, razorStage env ply depth wasNull beta evalv move flPrunable n tr pos pv
      = Sum.inl o → o.tag = ExitTag.razor := by
  intro o
  simp only [razorStage]
  repeat' split
  all_goals intro ho
  all_goals first
    | (cases ho; simp)
    | cases ho

/-- Helper: exit tags of the pre-loop continuation. -/
theorem preCont_tags {env : Env} {ply depth : Int} {wasNull isPv : Bool}
    {lastMove lastCaptSq rd : Int} {pos : List PosOp}
    {alpha beta move pvHead : Int} {tr : List Ev} {flCheck flPrunable : Bool}
    {evalv : Int} {n : ℕ} :
    ∀ o, preCont env ply depth wasNull isPv lastMove lastCaptSq rd pos
        alpha beta move pvHead tr flCheck flPrunable evalv n = Sum.inl o →
      o.tag = ExitTag.snp ∨ o.tag = ExitTag.nullVerAbort ∨ o.tag = ExitTag.nullCut
        ∨ o.tag = ExitTag.nullAbort ∨ o.tag = ExitTag.razor := by
  intro o
  simp only [preCont]
  repeat' split
  all_goals intro ho
  all_goals first
    | (cases ho; simp)
    | (cases ho; rcases nullBlock_tags _ (by assumption) with h | h | h <;> simp [h])
    | (cases ho; rcases razorStage_tags _ (by assumption) with h <;> simp [h])
    | cases ho

/-- Helper: exit tags of the pre-loop stage. -/
theorem preStage_tags {env : Env} {ply depth : Int} {wasNull isPv : Bool}
    {lastMove lastCaptSq rd : Int} {pos : List PosOp} {st : EntrySt} :
    ∀ o, preStage env ply depth wasNull isPv lastMove lastCaptSq rd pos st = Sum.inl o →
      o.tag = ExitTag.snp ∨ o.tag = ExitTag.nullVerAbort ∨ o.tag = ExitTag.nullCut
        ∨ o.tag = ExitTag.nullAbort ∨ o.tag = ExitTag.razor := by
  intro o
  simp only [preStage]
  repeat' split
  all_goals intro ho
  all_goals exact preCont_tags _ ho

/-- Helper: exit tags of the unmake tail of one loop iteration. -/
theorem stepUndo_tags {c : LCtx} {move : Int} {flFut : Bool}
    {mvTried quietTried : ℕ} {alpha best pvHead : Int} {tr : List Ev} {ps : List PosOp}
    {score : Int} {n : ℕ} :
    ∀ o, stepUndo c move flFut mvTried quietTried alpha best pvHead tr ps score n
      = Sum.inl o → o.tag = ExitTag.abortLoop ∨ o.tag = ExitTag.betaCut := by
  intro o
  simp only [stepUndo]
  repeat' split
  all_goals intro ho
  all_goals first
    | (cases ho; simp)
    | cases ho

/-- Helper: exit tags of the PVS block. -/
theorem stepPvs_tags {c : LCtx} {move mvType : Int} {flFut : Bool} {mvHist : Int}
    {mvTried quietTried : ℕ} {alpha best pvHead : Int} {tr : List Ev} {ps : List PosOp}
    {red nd : Int} {n : ℕ} :
    ∀ o, stepPvs c move mvType flFut mvHist mvTried quietTried alpha best pvHead tr ps red nd n
      = Sum.inl o → o.tag = ExitTag.abortLoop ∨ o.tag = ExitTag.betaCut := by
  intro o
  simp only [stepPvs]
  repeat' split
  all_goals intro ho
  all_goals exact stepUndo_tags _ ho

/-- Helper: exit tags of LMR 2. -/
theorem stepLmr2_tags {c : LCtx} {move mvType : Int} {flFut : Bool} {mvHist : Int}
    {mvTried quietTried : ℕ} {alpha best pvHead : Int} {tr : List Ev} {ps : List PosOp}
    {red nd : Int} {n : ℕ} :
    ∀ o, stepLmr2 c move mvType flFut mvHist mvTried quietTried alpha best pvHead tr ps red nd n
      = Sum.inl o → o.tag = ExitTag.abortLoop ∨ o.tag = ExitTag.betaCut := by
  intro o
  simp only [stepLmr2]
  repeat' split
  all_goals intro ho
  all_goals exact stepPvs_tags _ ho

/-- Helper: exit tags of the LMR 1 tail. -/
theorem stepLmr1c_tags {c : LCtx} {move mvType : Int} {flFut : Bool} {mvHist : Int}
    {mvTried quietTried : ℕ} {alpha best pvHead : Int} {tr : List Ev} {ps : List PosOp}
    {red2 nd : Int} {n : ℕ} :
    ∀ o, stepLmr1c c move mvType flFut mvHist mvTried quietTried alpha best pvHead tr ps red2 nd n
      = Sum.inl o → o.tag = ExitTag.abortLoop ∨ o.tag = ExitTag.betaCut := by
  intro o
  simp only [stepLmr1c]
  repeat' split
  all_goals intro ho
  all_goals exact stepLmr2_tags _ ho

/-- Helper: exit tags of LMR 1. -/
theorem stepLmr1_tags {c : LCtx} {move mvType : Int} {flFut : Bool} {mvHist : Int}
    {mvTried quietTried : ℕ} {alpha best pvHead : Int} {tr : List Ev} {ps : List PosOp}
    {sherwinFlag : Bool} {nd : Int} {n : ℕ} :
    ∀ o, stepLmr1 c move mvType flFut mvHist mvTried quietTried alpha best pvHead tr ps sherwinFlag nd n
      = Sum.inl o → o.tag = ExitTag.abortLoop ∨ o.tag = ExitTag.betaCut := by
  intro o
  simp only [stepLmr1]
  repeat' split
  all_goals intro ho
  all_goals first
    | (exact stepLmr1c_tags _ ho)
    | (exact stepLmr2_tags _ ho)

/-- Helper: exit tags of the sherwin probe. -/
theorem stepSher_tags {c : LCtx} {move mvType : Int} {flFut : Bool} {mvHist : Int}
    {mvTried quietTried : ℕ} {alpha best pvHead : Int} {tr : List Ev} {ps : List PosOp}
    {nd : Int} {n : ℕ} :
    ∀ o, stepSher c move mvType flFut mvHist mvTried quietTried alpha best pvHead tr ps nd n
      = Sum.inl o → o.tag = ExitTag.abortLoop ∨ o.tag = ExitTag.betaCut := by
  intro o
  simp only [stepSher]
  repeat' split
  all_goals intro ho
  all_goals exact stepLmr1_tags _ ho

/-- Helper: exit tags of late-move pruning. -/
theorem stepLmp_tags {c : LCtx} {move mvType : Int} {flFut : Bool} {mvHist : Int}
    {mvTried quietTried : ℕ} {alpha best pvHead : Int} {tr : List Ev} {ps : List PosOp}
    {nd : Int} {n : ℕ} :
    ∀ o, stepLmp c move mvType flFut mvHist mvTried quietTried alpha best pvHead tr ps nd n
      = Sum.inl o → o.tag = ExitTag.abortLoop ∨ o.tag = ExitTag.betaCut := by
  intro o
  simp only [stepLmp]
  repeat' split
  all_goals intro ho
  all_goals first
    | cases ho
    | (exact stepSher_tags _ ho)

/-- Helper: exit tags of futility pruning. -/
theorem stepFut_tags {c : LCtx} {move mvType : Int} {flFut : Bool} {mvHist : Int}
    {mvTried quietTried : ℕ} {alpha best pvHead : Int} {tr : List Ev} {ps : List PosOp}
    {nd : Int} {n : ℕ} :
    ∀ o, stepFut c move mvType flFut mvHist mvTried quietTried alpha best pvHead tr ps nd n
      = Sum.inl o → o.tag = ExitTag.abortLoop ∨ o.tag = ExitTag.betaCut := by
  intro o
  simp only [stepFut]
  repeat' split
  all_goals intro ho
  all_goals first
    | cases ho
    | (exact stepLmp_tags _ ho)

/-- Helper: exit tags of the extension steps. -/
theorem stepExtB_tags {c : LCtx} {move mvType : Int} {flFut : Bool} {mvHist : Int}
    {mvTried quietTried : ℕ} {alpha best pvHead : Int} {tr : List Ev} {ps : List PosOp}
    {nd1 : Int} {n : ℕ} :
    ∀ o, stepExtB c move mvType flFut mvHist mvTried quietTried alpha best pvHead tr ps nd1 n
      = Sum.inl o → o.tag = ExitTag.abortLoop ∨ o.tag = ExitTag.betaCut := by
  intro o
  simp only [stepExtB]
  repeat' split
  all_goals intro ho
  all_goals exact stepFut_tags _ ho

/-- Helper: exit tags of the check-extension step. -/
theorem stepExtA_tags {c : LCtx} {move mvType : Int} {flFut : Bool} {mvHist : Int}
    {mvTried quietTried : ℕ} {alpha best pvHead : Int} {tr : List Ev} {ps : List PosOp}
    {n : ℕ} :
    ∀ o, stepExtA c move mvType flFut mvHist mvTried quietTried alpha best pvHead tr ps n
      = Sum.inl o → o.tag = ExitTag.abortLoop ∨ o.tag = ExitTag.betaCut := by
  intro o
  simp only [stepExtA]
  repeat' split
  all_goals intro ho
  all_goals exact stepExtB_tags _ ho

/-- Helper: exit tags of the terminal stage. -/
theorem finStage_tags (env : Env) (ply depth : Int) (flCheck : Bool)
    (pos : List PosOp) (st : LoopSt) :
    (finStage env ply depth flCheck pos st).tag = ExitTag.noLegal
      ∨ (finStage env ply depth flCheck pos st).tag = ExitTag.stored := by
  simp only [finStage]
  repeat' split
  all_goals simp

/-- Helper: exit tags of one loop iteration. -/
theorem loopBody_tags {c : LCtx} {st : LoopSt} :
    ∀ o, loopBody c st = Sum.inl o →
      o.tag = ExitTag.abortLoop ∨ o.tag = ExitTag.betaCut
        ∨ o.tag = ExitTag.noLegal ∨ o.tag = ExitTag.stored := by
  intro o
  simp only [loopBody]
  repeat' split
  all_goals intro ho
  all_goals first
    | (cases ho
       rcases finStage_tags c.env c.ply c.depth c.flCheck st.pos { st with n := st.n + 1 }
         with h | h <;> simp [h])
    | (rcases stepExtA_tags _ ho with h | h <;> simp [h])
    | cases ho

/-- Helper: exit tags of the whole loop. -/
theorem loopStage_tags (c : LCtx) :
    ∀ (fuel : ℕ) (st : LoopSt),
      (loopStage c fuel st).tag = ExitTag.abortLoop
        ∨ (loopStage c fuel st).tag = ExitTag.betaCut
        ∨ (loopStage c fuel st).tag = ExitTag.noLegal
        ∨ (loopStage c fuel st).tag = ExitTag.stored
        ∨ (loopStage c fuel st).tag = ExitTag.fuelOut := by
  intro fuel
  induction fuel with
  | zero => intro st; simp [loopStage]
  | succ f ih =>
    intro st
    rcases hb : loopBody c st with o | st2
    · simp only [loopStage, hb]
      rcases loopBody_tags _ hb with h | h | h | h <;> simp [h]
    · simp only [loopStage, hb]
      exact ih st2

/-- C7: mate-distance pruning of the kernel.  For a frame with `ply > 0`
that passes the entry checks: when `MATE - ply < beta` and
`alpha ≥ MATE - ply`, the frame returns `alpha` immediately; symmetrically,
when the alpha-side-return case is not taken, `-MATE + ply > alpha` and the
(possibly beta-tightened) bound `beta' ≤ -MATE + ply`, the frame returns
`beta'`.  At the root (`ply = 0`) no mate-distance pruning happens: the
frame never exits through either mate-distance return. -/
theorem C7_mate_distance_pruning (env : Env) (fuel : ℕ) (ply alpha beta depth : Int)
    (wasNull : Bool) (lastMove lastCaptSq rd : Int) (n : ℕ) (pos : List PosOp)
    (pv : Int) :
    (0 < depth → ¬ (env.abort n = true ∧ rd > 1) → env.isDraw (n + 1) = false →
      ply > 0 → MATE - ply < beta → alpha ≥ MATE - ply →
      (Search env fuel ply alpha beta depth wasNull lastMove lastCaptSq rd n pos pv).res
        = some alpha) ∧
    (0 < depth → ¬ (env.abort n = true ∧ rd > 1) → env.isDraw (n + 1) = false →
      ply > 0 → ¬ (MATE - ply < beta ∧ alpha ≥ MATE - ply) →
      -MATE + ply > alpha →
      (if MATE - ply < beta then MATE - ply else beta) ≤ -MATE + ply →
      (Search env fuel ply alpha beta depth wasNull lastMove lastCaptSq rd n pos pv).res
        = some (if MATE - ply < beta then MATE - ply else beta)) ∧
    (ply = 0 →
      (Search env fuel ply alpha beta depth wasNull lastMove lastCaptSq rd n pos pv).tag
          ≠ ExitTag.mdpAlpha ∧
      (Search env fuel ply alpha beta depth wasNull lastMove lastCaptSq rd n pos pv).tag
          ≠ ExitTag.mdpBeta) := by
  refine ⟨?_, ?_, ?_⟩
  · intro hd hab hdr hply hb ha
    unfold Search entryStage
    simp only [if_neg (by omega : ¬ depth ≤ 0), if_neg hab, hdr, Bool.false_eq_true,
      false_and, if_false, if_neg (by simp : ¬ (False ∧ ply ≠ 0))]
    rw [if_pos ⟨by omega, hb, ha⟩]
  · intro hd hab hdr hply hna hgt hle
    have hply2 : ply ≠ 0 := by omega
    have hbeq : (if ply ≠ 0 ∧ MATE - ply < beta then MATE - ply else beta)
        = (if MATE - ply < beta then MATE - ply else beta) := by simp [hply2]
    unfold Search entryStage
    simp only [if_neg (by omega : ¬ depth ≤ 0), if_neg hab, hdr, Bool.false_eq_true,
      false_and, if_false]
    rw [if_neg (fun hx => hna ⟨hx.2.1, hx.2.2⟩)]
    rw [hbeq]
    rw [if_pos ⟨hply2, hgt, hle⟩]
  · intro hply
    unfold Search
    split
    · simp
    · rcases he : entryStage env ply alpha beta rd (decide (alpha ≠ beta - 1)) n pos pv
        with o | st
      · simp only [he]
        exact entry_no_mdp_at_root hply o he
      · simp only [he]
        rcases hp : preStage env ply depth wasNull (decide (alpha ≠ beta - 1)) lastMove lastCaptSq rd pos st
          with o2 | mid
        · simp only [hp]
          rcases preStage_tags _ hp with h | h | h | h | h <;> (rw [h]; decide)
        · simp only [hp]
          rcases loopStage_tags
              ⟨env, ply, mid.beta, depth, decide (alpha ≠ beta - 1), mid.flCheck, mid.flPrunable,
               mid.didNull, mid.evalv, lastCaptSq, rd⟩ fuel
              ⟨mid.n, mid.trace, mid.pvHead, mid.alpha, -INF, false, 0, 0, pos⟩
            with h | h | h | h | h <;> (rw [h]; decide)

/-- C7, witness: at `ply = 5`, `alpha = MATE - 5`, `beta = INF`, the frame
exits through mate-distance pruning with `alpha`. -/
theorem C7_mate_distance_pruning_witness :
    (Search envMdp 5 5 (MATE - 5) INF 1 false (-1) (-1) 1 0 [] 0).res
      = some (MATE - 5) :=
  (C7_mate_distance_pruning envMdp 5 5 (MATE - 5) INF 1 false (-1) (-1) 1 0 [] 0).1
    (by norm_num) (by decide) (by decide) (by norm_num)
    (by norm_num [MATE, INF]) (by norm_num)

/-- C1: make/unmake parity of one kernel frame.  Every `DoMove` is paired
with an `UndoMove` and every `DoNull` with an `UndoNull` on every
control-flow exit — the illegal-move skip, the futility-prune and
late-move-prune continues, the research re-entry, the beta-cutoff return,
the abort returns, and the normal loop exit — so the position history
stack at exit equals the one at entry (and hence the position object at
exit equals the position at entry).  This holds unconditionally, in
particular for every frame that runs to completion. -/
theorem C1_make_unmake_parity (env : Env) (fuel : ℕ) (ply alpha beta depth : Int)
    (wasNull : Bool) (lastMove lastCaptSq rd : Int) (n : ℕ) (pos : List PosOp)
    (pv : Int) :
    (Search env fuel ply alpha beta depth wasNull lastMove lastCaptSq rd n pos pv).pos
      = pos :=
  search_pos env fuel ply alpha beta depth wasNull lastMove lastCaptSq rd n pos pv

/-- Helper: a trace without a successful abort poll satisfies `AbortLast`
vacuously. -/
theorem abortLast_of_notin {tr : List Ev} {res : Option Int}
    (h : trNoTrue tr) : AbortLast tr res := by
  intro a b hab
  exact absurd (by rw [hab]; simp : Ev.abortCheck true ∈ tr) h

/-- Helper: appending one abort poll to a clean trace of a frame that then
returns 0 satisfies `AbortLast`. -/
theorem abortLast_snocb {tr : List Ev} {b : Bool}
    (h : trNoTrue tr) : AbortLast (tr ++ [Ev.abortCheck b]) (some 0) := by
  intro a bl hab
  cases b with
  | false =>
    exact absurd (by rw [hab]; simp : Ev.abortCheck true ∈ tr ++ [Ev.abortCheck false])
      (by simp [trNoTrue] at h ⊢; exact h)
  | true =>
    refine ⟨?_, rfl⟩
    rcases List.eq_nil_or_concat bl with rfl | ⟨bl2, y, rfl⟩
    · rfl
    · exfalso
      rw [List.concat_eq_append] at hab
      rw [show a ++ Ev.abortCheck true :: (bl2 ++ [y])
            = (a ++ Ev.abortCheck true :: bl2) ++ [y] by simp] at hab
      rcases List.append_inj' hab (by simp) with ⟨h1, h2⟩
      exact h (by rw [h1]; simp)

/-- Helper: the events of a PVS step never contain an abort poll. -/
theorem pvsStep_evs_clean (env : Env) (best alpha beta nd : Int) (n : ℕ) :
    trNoTrue (pvsStep env best alpha beta nd n).evs := by
  simp only [pvsStep]
  repeat' split
  all_goals simp [trNoTrue]

/-- Helper: abort discipline of the entry stage (its trace is built from
scratch). -/
theorem entry_abort {env : Env} {ply alpha beta rd : Int} {isPv : Bool}
    {n : ℕ} {pos : List PosOp} {pv : Int} (hrd : rd > 1) :
    (∀ o, entryStage env ply alpha beta rd isPv n pos pv = Sum.inl o →
       AbortLast o.trace o.res) ∧
    (∀ st, entryStage env ply alpha beta rd isPv n pos pv = Sum.inr st →
       trNoTrue st.trace) := by
  constructor
  all_goals intro x hx
  all_goals simp only [entryStage] at hx
  all_goals repeat' split at hx
  all_goals cases hx
  all_goals first
    | (refine @abortLast_snocb [] _ ?_
       simp [trNoTrue])
    | (apply abortLast_of_notin
       simp_all [trNoTrue, hrd])
    | (simp_all [trNoTrue, hrd])

/-- Helper: abort discipline of the null-move verification. -/
theorem nullVerify_abort {env : Env} {ply alpha beta : Int}
    {newDepth score1 move1 refSq rd : Int} {n : ℕ} {tr : List Ev}
    {pos : List PosOp} {pv : Int} (hrd : rd > 1) (htr : trNoTrue tr) :
    (∀ o, nullVerify env ply alpha beta newDepth score1 move1 refSq rd n tr pos pv
        = Sum.inl o → AbortLast o.trace o.res) ∧
    (∀ st, nullVerify env ply alpha beta newDepth score1 move1 refSq rd n tr pos pv
        = Sum.inr st → trNoTrue st.trace) := by
  constructor
  all_goals intro x hx
  all_goals simp only [nullVerify] at hx
  all_goals repeat' split at hx
  all_goals cases hx
  all_goals first
    | (apply abortLast_snocb
       simp_all [trNoTrue, hrd])
    | (apply abortLast_of_notin
       simp_all [trNoTrue, hrd])
    | (simp_all [trNoTrue, hrd])

/-- Helper: abort discipline of the null-block tail. -/
theorem nullFinish_abort {env : Env} {ply alpha beta : Int}
    {newDepth score1 move1 refSq rd : Int} {n : ℕ} {tr : List Ev}
    {pos : List PosOp} {pv : Int} (hrd : rd > 1) (htr : trNoTrue tr) :
    (∀ o, nullFinish env ply alpha beta newDepth score1 move1 refSq rd n tr pos pv
        = Sum.inl o → AbortLast o.trace o.res) ∧
    (∀ st, nullFinish env ply alpha beta newDepth score1 move1 refSq rd n tr pos pv
        = Sum.inr st → trNoTrue st.trace) := by
  constructor
  all_goals intro x hx
  all_goals simp only [nullFinish] at hx
  all_goals repeat' split at hx
  all_goals first
    | (exact (nullVerify_abort hrd htr).1 x hx)
    | (exact (nullVerify_abort hrd htr).2 x hx)
    | (cases hx; exact htr)
    | cases hx

/-- Helper: abort discipline of the null search. -/
theorem nullRun_abort {env : Env} {ply alpha beta rd : Int}
    {newDepth move1 : Int} {n : ℕ} {tr : List Ev} {pos : List PosOp}
    {pv : Int} (hrd : rd > 1) (htr : trNoTrue tr) :
    (∀ o, nullRun env ply alpha beta rd newDepth move1 n tr pos pv
        = Sum.inl o → AbortLast o.trace o.res) ∧
    (∀ st, nullRun env ply alpha beta rd newDepth move1 n tr pos pv
        = Sum.inr st → trNoTrue st.trace) := by
  constructor
  all_goals intro x hx
  all_goals simp only [nullRun] at hx
  all_goals repeat' split at hx
  all_goals first
    | (cases hx
       all_goals first
         | (apply abortLast_snocb
            simp_all [trNoTrue, hrd])
         | (apply abortLast_of_notin
            simp_all [trNoTrue, hrd])
         | (simp_all [trNoTrue, hrd]))
    | (exact (nullFinish_abort hrd (by simp_all [trNoTrue, hrd])).1 x hx)
    | (exact (nullFinish_abort hrd (by simp_all [trNoTrue, hrd])).2 x hx)

/-- Helper: abort discipline of the null-move block. -/
theorem nullBlock_abort {env : Env} {ply depth : Int} {wasNull : Bool}
    {alpha beta evalv rd : Int} {flPrunable : Bool} {n : ℕ} {tr : List Ev}
    {pos : List PosOp} {pv move : Int} (hrd : rd > 1) (htr : trNoTrue tr) :
    (∀ o, nullBlock env ply depth wasNull alpha beta evalv rd flPrunable n tr pos pv move
        = Sum.inl o → AbortLast o.trace o.res) ∧
    (∀ st, nullBlock env ply depth wasNull alpha beta evalv rd flPrunable n tr pos pv move
        = Sum.inr st → trNoTrue st.trace) := by
  constructor
  all_goals intro x hx
  all_goals simp only [nullBlock] at hx
  all_goals repeat' split at hx
  all_goals first
    | (cases hx
       all_goals simp_all [trNoTrue, hrd])
    | (exact (nullRun_abort hrd (by simp_all [trNoTrue, hrd])).1 x hx)
    | (exact (nullRun_abort hrd (by simp_all [trNoTrue, hrd])).2 x hx)

/-- Helper: abort discipline of razoring (it adds no events). -/
theorem razor_abort {env : Env} {ply depth : Int} {wasNull : Bool}
    {beta evalv move : Int} {flPrunable : Bool} {n : ℕ} {tr : List Ev}
    {pos : List PosOp} {pv : Int} (htr : trNoTrue tr) :
    ∀ o, razorStage env ply depth wasNull beta evalv move flPrunable n tr pos pv
        = Sum.inl o → AbortLast o.trace o.res := by
  intro o ho
  simp only [razorStage] at ho
  repeat' split at ho
  all_goals cases ho
  all_goals exact abortLast_of_notin htr

/-- Helper: abort discipline of the pre-loop continuation. -/
theorem preCont_abort {env : Env} {ply depth : Int} {wasNull isPv : Bool}
    {lastMove lastCaptSq rd : Int} {pos : List PosOp}
    {alpha beta move pvHead : Int} {tr : List Ev} {flCheck flPrunable : Bool}
    {evalv : Int} {n : ℕ} (hrd : rd > 1) (htr : trNoTrue tr) :
    (∀ o, preCont env ply depth wasNull isPv lastMove lastCaptSq rd pos
        alpha beta move pvHead tr flCheck flPrunable evalv n = Sum.inl o →
        AbortLast o.trace o.res) ∧
    (∀ st, preCont env ply depth wasNull isPv lastMove lastCaptSq rd pos
        alpha beta move pvHead tr flCheck flPrunable evalv n = Sum.inr st →
        trNoTrue st.trace) := by
  constructor
  all_goals intro x hx
  all_goals simp only [preCont, iidStage] at hx
  all_goals repeat' split at hx
  all_goals first
    | (cases hx
       all_goals first
         | (exact abortLast_of_notin htr)
         | (exact (nullBlock_abort hrd htr).1 _ (by assumption))
         | (refine razor_abort ?_ _ (by assumption)
            exact (nullBlock_abort hrd htr).2 _ (by assumption))
         | (have h2 := (nullBlock_abort hrd htr).2 _ (by assumption)
            simp_all [trNoTrue, hrd]))
    | cases hx

/-- Helper: abort discipline of the pre-loop stage. -/
theorem preStage_abort {env : Env} {ply depth : Int} {wasNull isPv : Bool}
    {lastMove lastCaptSq rd : Int} {pos : List PosOp} {st : EntrySt}
    (hrd : rd > 1) (htr : trNoTrue st.trace) :
    (∀ o, preStage env ply depth wasNull isPv lastMove lastCaptSq rd pos st = Sum.inl o →
        AbortLast o.trace o.res) ∧
    (∀ mid, preStage env ply depth wasNull isPv lastMove lastCaptSq rd pos st = Sum.inr mid →
        trNoTrue mid.trace) := by
  constructor
  all_goals intro x hx
  all_goals simp only [preStage] at hx
  all_goals repeat' split at hx
  all_goals first
    | (exact (preCont_abort hrd htr).1 x hx)
    | (exact (preCont_abort hrd htr).2 x hx)

/-- Helper: the terminal stage adds no abort polls, so a clean loop trace
stays clean. -/
theorem finStage_abort {env : Env} {ply depth : Int} {flCheck : Bool}
    {pos : List PosOp} {st : LoopSt} (htr : trNoTrue st.trace) :
    AbortLast (finStage env ply depth flCheck pos st).trace
      (finStage env ply depth flCheck pos st).res := by
  simp only [finStage]
  repeat' split
  all_goals apply abortLast_of_notin
  all_goals simp_all [trNoTrue, List.mem_append, List.mem_replicate]

/-- Helper: abort discipline of the unmake tail of one loop iteration. -/
theorem stepUndo_abort {c : LCtx} {move : Int} {flFut : Bool}
    {mvTried quietTried : ℕ} {alpha best pvHead : Int} {tr : List Ev} {ps : List PosOp}
    {score : Int} {n : ℕ} (hrd : c.rd > 1) (htr : trNoTrue tr) :
    (∀ o, stepUndo c move flFut mvTried quietTried alpha best pvHead tr ps score n
        = Sum.inl o → AbortLast o.trace o.res) ∧
    (∀ st, stepUndo c move flFut mvTried quietTried alpha best pvHead tr ps score n
        = Sum.inr st → trNoTrue st.trace) := by
  constructor
  all_goals intro x hx
  all_goals simp only [stepUndo] at hx
  all_goals repeat' split at hx
  all_goals cases hx
  all_goals first
    | (apply abortLast_snocb
       simp_all [trNoTrue, hrd, List.mem_append, List.mem_replicate])
    | (apply abortLast_of_notin
       simp_all [trNoTrue, hrd, List.mem_append, List.mem_replicate])
    | (simp_all [trNoTrue, hrd, List.mem_append, List.mem_replicate])

/-- Helper: abort discipline of the PVS block (its events are only scout
reads, never abort polls). -/
theorem stepPvs_abort {c : LCtx} {move mvType : Int} {flFut : Bool}
    {mvHist : Int} {mvTried quietTried : ℕ} {alpha best pvHead : Int}
    {tr : List Ev} {ps : List PosOp} {red nd : Int} {n : ℕ} (hrd : c.rd > 1) (htr : trNoTrue tr) :
    (∀ o, stepPvs c move mvType flFut mvHist mvTried quietTried alpha best pvHead tr ps red nd n
        = Sum.inl o → AbortLast o.trace o.res) ∧
    (∀ st, stepPvs c move mvType flFut mvHist mvTried quietTried alpha best pvHead tr ps red nd n
        = Sum.inr st → trNoTrue st.trace) := by
  have h1 := pvsStep_evs_clean c.env best alpha c.beta nd n
  have h2 := pvsStep_evs_clean c.env best alpha c.beta (nd + red)
    (pvsStep c.env best alpha c.beta nd n).n
  constructor
  all_goals intro x hx
  all_goals simp only [stepPvs] at hx
  all_goals repeat' split at hx
  all_goals first
    | (exact (stepUndo_abort hrd (by simp_all [trNoTrue, List.mem_append])).1 x hx)
    | (exact (stepUndo_abort hrd (by simp_all [trNoTrue, List.mem_append])).2 x hx)

/-- Helper: abort discipline of LMR 2. -/
theorem stepLmr2_abort {c : LCtx} {move mvType : Int} {flFut : Bool}
    {mvHist : Int} {mvTried quietTried : ℕ} {alpha best pvHead : Int}
    {tr : List Ev} {ps : List PosOp} {red nd : Int} {n : ℕ} (hrd : c.rd > 1) (htr : trNoTrue tr) :
    (∀ o, stepLmr2 c move mvType flFut mvHist mvTried quietTried alpha best pvHead tr ps red nd n
        = Sum.inl o → AbortLast o.trace o.res) ∧
    (∀ st, stepLmr2 c move mvType flFut mvHist mvTried quietTried alpha best pvHead tr ps red nd n
        = Sum.inr st → trNoTrue st.trace) := by
  constructor
  all_goals intro x hx
  all_goals simp only [stepLmr2] at hx
  all_goals repeat' split at hx
  all_goals first
    | (exact (stepPvs_abort hrd htr).1 x hx)
    | (exact (stepPvs_abort hrd htr).2 x hx)

/-- Helper: abort discipline of the LMR 1 tail. -/
theorem stepLmr1c_abort {c : LCtx} {move mvType : Int} {flFut : Bool}
    {mvHist : Int} {mvTried quietTried : ℕ} {alpha best pvHead : Int}
    {tr : List Ev} {ps : List PosOp} {red2 nd : Int} {n : ℕ} (hrd : c.rd > 1) (htr : trNoTrue tr) :
    (∀ o, stepLmr1c c move mvType flFut mvHist mvTried quietTried alpha best pvHead tr ps red2 nd n
        = Sum.inl o → AbortLast o.trace o.res) ∧
    (∀ st, stepLmr1c c move mvType flFut mvHist mvTried quietTried alpha best pvHead tr ps red2 nd n
        = Sum.inr st → trNoTrue st.trace) := by
  constructor
  all_goals intro x hx
  all_goals simp only [stepLmr1c] at hx
  all_goals repeat' split at hx
  all_goals first
    | (exact (stepLmr2_abort hrd htr).1 x hx)
    | (exact (stepLmr2_abort hrd htr).2 x hx)

/-- Helper: abort discipline of LMR 1. -/
theorem stepLmr1_abort {c : LCtx} {move mvType : Int} {flFut : Bool}
    {mvHist : Int} {mvTried quietTried : ℕ} {alpha best pvHead : Int}
    {tr : List Ev} {ps : List PosOp} {sherwinFlag : Bool} {nd : Int} {n : ℕ}
    (hrd : c.rd > 1) (htr : trNoTrue tr) :
    (∀ o, stepLmr1 c move mvType flFut mvHist mvTried quietTried alpha best pvHead tr ps sherwinFlag nd n
        = Sum.inl o → AbortLast o.trace o.res) ∧
    (∀ st, stepLmr1 c move mvType flFut mvHist mvTried quietTried alpha best pvHead tr ps sherwinFlag nd n
        = Sum.inr st → trNoTrue st.trace) := by
  constructor
  all_goals intro x hx
  all_goals simp only [stepLmr1] at hx
  all_goals repeat' split at hx
  all_goals first
    | (exact (stepLmr1c_abort hrd htr).1 x hx)
    | (exact (stepLmr1c_abort hrd htr).2 x hx)
    | (exact (stepLmr2_abort hrd htr).1 x hx)
    | (exact (stepLmr2_abort hrd htr).2 x hx)

/-- Helper: abort discipline of the sherwin probe. -/
theorem stepSher_abort {c : LCtx} {move mvType : Int} {flFut : Bool}
    {mvHist : Int} {mvTried quietTried : ℕ} {alpha best pvHead : Int}
    {tr : List Ev} {ps : List PosOp} {nd : Int} {n : ℕ} (hrd : c.rd > 1) (htr : trNoTrue tr) :
    (∀ o, stepSher c move mvType flFut mvHist mvTried quietTried alpha best pvHead tr ps nd n
        = Sum.inl o → AbortLast o.trace o.res) ∧
    (∀ st, stepSher c move mvType flFut mvHist mvTried quietTried alpha best pvHead tr ps nd n
        = Sum.inr st → trNoTrue st.trace) := by
  constructor
  all_goals intro x hx
  all_goals simp only [stepSher] at hx
  all_goals repeat' split at hx
  all_goals first
    | (exact (stepLmr1_abort hrd htr).1 x hx)
    | (exact (stepLmr1_abort hrd htr).2 x hx)

/-- Helper: abort discipline of late-move pruning. -/
theorem stepLmp_abort {c : LCtx} {move mvType : Int} {flFut : Bool}
    {mvHist : Int} {mvTried quietTried : ℕ} {alpha best pvHead : Int}
    {tr : List Ev} {ps : List PosOp} {nd : Int} {n : ℕ} (hrd : c.rd > 1) (htr : trNoTrue tr) :
    (∀ o, stepLmp c move mvType flFut mvHist mvTried quietTried alpha best pvHead tr ps nd n
        = Sum.inl o → AbortLast o.trace o.res) ∧
    (∀ st, stepLmp c move mvType flFut mvHist mvTried quietTried alpha best pvHead tr ps nd n
        = Sum.inr st → trNoTrue st.trace) := by
  constructor
  all_goals intro x hx
  all_goals simp only [stepLmp] at hx
  all_goals repeat' split at hx
  all_goals first
    | (cases hx
       all_goals simp_all [trNoTrue, List.mem_append])
    | (exact (stepSher_abort hrd htr).1 x hx)
    | (exact (stepSher_abort hrd htr).2 x hx)

/-- Helper: abort discipline of futility pruning. -/
theorem stepFut_abort {c : LCtx} {move mvType : Int} {flFut : Bool}
    {mvHist : Int} {mvTried quietTried : ℕ} {alpha best pvHead : Int}
    {tr : List Ev} {ps : List PosOp} {nd : Int} {n : ℕ} (hrd : c.rd > 1) (htr : trNoTrue tr) :
    (∀ o, stepFut c move mvType flFut mvHist mvTried quietTried alpha best pvHead tr ps nd n
        = Sum.inl o → AbortLast o.trace o.res) ∧
    (∀ st, stepFut c move mvType flFut mvHist mvTried quietTried alpha best pvHead tr ps nd n
        = Sum.inr st → trNoTrue st.trace) := by
  constructor
  all_goals intro x hx
  all_goals simp only [stepFut] at hx
  all_goals repeat' split at hx
  all_goals first
    | (cases hx
       all_goals simp_all [trNoTrue, List.mem_append])
    | (exact (stepLmp_abort hrd htr).1 x hx)
    | (exact (stepLmp_abort hrd htr).2 x hx)

/-- Helper: abort discipline of the extension steps. -/
theorem stepExtB_abort {c : LCtx} {move mvType : Int} {flFut : Bool}
    {mvHist : Int} {mvTried quietTried : ℕ} {alpha best pvHead : Int}
    {tr : List Ev} {ps : List PosOp} {nd1 : Int} {n : ℕ} (hrd : c.rd > 1) (htr : trNoTrue tr) :
    (∀ o, stepExtB c move mvType flFut mvHist mvTried quietTried alpha best pvHead tr ps nd1 n
        = Sum.inl o → AbortLast o.trace o.res) ∧
    (∀ st, stepExtB c move mvType flFut mvHist mvTried quietTried alpha best pvHead tr ps nd1 n
        = Sum.inr st → trNoTrue st.trace) := by
  constructor
  all_goals intro x hx
  all_goals simp only [stepExtB] at hx
  all_goals repeat' split at hx
  all_goals first
    | (exact (stepFut_abort hrd htr).1 x hx)
    | (exact (stepFut_abort hrd htr).2 x hx)

/-- Helper: abort discipline of the check-extension step. -/
theorem stepExtA_abort {c : LCtx} {move mvType : Int} {flFut : Bool}
    {mvHist : Int} {mvTried quietTried : ℕ} {alpha best pvHead : Int}
    {tr : List Ev} {ps : List PosOp} {n : ℕ} (hrd : c.rd > 1) (htr : trNoTrue tr) :
    (∀ o, stepExtA c move mvType flFut mvHist mvTried quietTried alpha best pvHead tr ps n
        = Sum.inl o → AbortLast o.trace o.res) ∧
    (∀ st, stepExtA c move mvType flFut mvHist mvTried quietTried alpha best pvHead tr ps n
        = Sum.inr st → trNoTrue st.trace) := by
  constructor
  all_goals intro x hx
  all_goals simp only [stepExtA] at hx
  all_goals repeat' split at hx
  all_goals first
    | (exact (stepExtB_abort hrd htr).1 x hx)
    | (exact (stepExtB_abort hrd htr).2 x hx)

/-- Helper: abort discipline of one loop iteration. -/
theorem loopBody_abort {c : LCtx} {st : LoopSt} (hrd : c.rd > 1)
    (htr : trNoTrue st.trace) :
    (∀ o, loopBody c st = Sum.inl o → AbortLast o.trace o.res) ∧
    (∀ st2, loopBody c st = Sum.inr st2 → trNoTrue st2.trace) := by
  constructor
  all_goals intro x hx
  all_goals simp only [loopBody] at hx
  all_goals repeat' split at hx
  all_goals first
    | (cases hx
       all_goals first
         | (exact finStage_abort htr)
         | (simp_all [trNoTrue, List.mem_append]))
    | (exact (stepExtA_abort hrd (by simp_all [trNoTrue, List.mem_append])).1 x hx)
    | (exact (stepExtA_abort hrd (by simp_all [trNoTrue, List.mem_append])).2 x hx)

/-- Helper: abort discipline of the whole move loop. -/
theorem loopStage_abort (c : LCtx) (hrd : c.rd > 1) :
    ∀ (fuel : ℕ) (st : LoopSt), trNoTrue st.trace →
      AbortLast (loopStage c fuel st).trace (loopStage c fuel st).res := by
  intro fuel
  induction fuel with
  | zero =>
    intro st htr
    exact abortLast_of_notin htr
  | succ f ih =>
    intro st htr
    rcases hb : loopBody c st with o | st2
    · simp only [loopStage, hb]
      exact (loopBody_abort hrd htr).1 o hb
    · simp only [loopStage, hb]
      exact ih st2 ((loopBody_abort hrd htr).2 st2 hb)

/-- Helper: abort discipline of a whole frame — a successful abort poll is
the last event of the frame trace and forces the dummy result 0. -/
theorem search_abort (env : Env) (fuel : ℕ) (ply alpha beta depth : Int)
    (wasNull : Bool) (lastMove lastCaptSq rd : Int) (n : ℕ) (pos : List PosOp)
    (pv : Int) (hrd : rd > 1) :
    AbortLast (Search env fuel ply alpha beta depth wasNull lastMove lastCaptSq rd n pos pv).trace
      (Search env fuel ply alpha beta depth wasNull lastMove lastCaptSq rd n pos pv).res := by
  unfold Search
  split
  · exact abortLast_of_notin (by simp [trNoTrue])
  · rcases he : entryStage env ply alpha beta rd (decide (alpha ≠ beta - 1)) n pos pv
      with o | st
    · simp only [he]
      exact (entry_abort hrd).1 o he
    · simp only [he]
      have htr1 := (entry_abort hrd).2 st he
      rcases hp : preStage env ply depth wasNull (decide (alpha ≠ beta - 1)) lastMove lastCaptSq rd pos st
        with o2 | mid
      · simp only [hp]
        exact (preStage_abort hrd htr1).1 o2 hp
      · simp only [hp]
        exact loopStage_abort
          ⟨env, ply, mid.beta, depth, decide (alpha ≠ beta - 1), mid.flCheck, mid.flPrunable,
           mid.didNull, mid.evalv, lastCaptSq, rd⟩ hrd fuel
          ⟨mid.n, mid.trace, mid.pvHead, mid.alpha, -INF, false, 0, 0, pos⟩
          ((preStage_abort hrd htr1).2 mid hp)

/-- C6: once the abort flag is up and the worker's root depth exceeds 1,
a frame returns 0 at its next abort check: whenever the frame's trace
contains a successful abort poll (`abortCheck true`, at node entry, after
the null-move unwind, after the verification search, or after a move's
unmake), that poll is the very last event of the frame — so no
transposition store and no history update follow it — the frame's result
is the dummy score 0, and the position stack is already restored. -/
theorem C6_abort_unwind (env : Env) (fuel : ℕ) (ply alpha beta depth : Int)
    (wasNull : Bool) (lastMove lastCaptSq rd : Int) (n : ℕ) (pos : List PosOp)
    (pv : Int) (a b : List Ev) (hrd : rd > 1)
    (h : (Search env fuel ply alpha beta depth wasNull lastMove lastCaptSq rd n pos pv).trace
           = a ++ Ev.abortCheck true :: b) :
    b = [] ∧
    (Search env fuel ply alpha beta depth wasNull lastMove lastCaptSq rd n pos pv).res
      = some 0 ∧
    (Search env fuel ply alpha beta depth wasNull lastMove lastCaptSq rd n pos pv).pos
      = pos := by
  rcases search_abort env fuel ply alpha beta depth wasNull lastMove lastCaptSq rd n pos pv hrd
    a b h with ⟨hb, hres⟩
  exact ⟨hb, hres, search_pos env fuel ply alpha beta depth wasNull lastMove lastCaptSq rd n pos pv⟩

/-- C6, witness: a frame entered with the abort flag already raised and
root depth 2 checks the flag once, returns 0 and leaves the position
stack empty. -/
theorem C6_abort_unwind_witness :
    ([] : List Ev) = [] ∧
    (Search envAborted 5 3 (-100) 100 2 false (-1) (-1) 2 0 [] 0).res = some 0 ∧
    (Search envAborted 5 3 (-100) 100 2 false (-1) (-1) 2 0 [] 0).pos = [] :=
  C6_abort_unwind envAborted 5 3 (-100) 100 2 false (-1) (-1) 2 0 [] 0
    [] [] (by norm_num) (by decide)

/-- Helper: splitting a store-free trace across an append. -/
theorem noStoreE_append {a b : List Ev} :
    noStoreE (a ++ b) ↔ noStoreE a ∧ noStoreE b := by
  simp [noStoreE, List.mem_append, or_imp, forall_and]

/-- Helper: splitting a store-free trace at a cons cell. -/
theorem noStoreE_cons {e : Ev} {tr : List Ev} :
    noStoreE (e :: tr) ↔ Ev.isStore e = false ∧ noStoreE tr := by
  simp [noStoreE, List.mem_cons, or_imp, forall_and, forall_eq]

/-- Helper: the empty trace is store-free. -/
theorem noStoreE_nil : noStoreE [] := by
  simp [noStoreE]

/-- Helper: splitting a pv-untouched trace across an append. -/
theorem noPvTouch_append {a b : List Ev} :
    noPvTouch (a ++ b) ↔ noPvTouch a ∧ noPvTouch b := by
  simp [noPvTouch, List.mem_append, or_imp, forall_and]

/-- Helper: splitting a pv-untouched trace at a cons cell. -/
theorem noPvTouch_cons {e : Ev} {tr : List Ev} :
    noPvTouch (e :: tr) ↔ Ev.isPvTouch e = false ∧ noPvTouch tr := by
  simp [noPvTouch, List.mem_cons, or_imp, forall_and, forall_eq]

/-- Helper: the empty trace touches no pv. -/
theorem noPvTouch_nil : noPvTouch [] := by
  simp [noPvTouch]

/-- Helper: splitting an exact-store-free trace across an append. -/
theorem noExactE_append {a b : List Ev} :
    noExactE (a ++ b) ↔ noExactE a ∧ noExactE b := by
  simp [noExactE, List.mem_append, or_imp, forall_and]

/-- Helper: splitting an exact-store-free trace at a cons cell. -/
theorem noExactE_cons {e : Ev} {tr : List Ev} :
    noExactE (e :: tr) ↔ Ev.isExactStore e = false ∧ noExactE tr := by
  simp [noExactE, List.mem_cons, or_imp, forall_and, forall_eq]

/-- Helper: the empty trace has no exact store. -/
theorem noExactE_nil : noExactE [] := by
  simp [noExactE]

/-- Helper: a store-free trace is exact-store-free. -/
theorem noExactE_of_noStoreE {tr : List Ev} (h : noStoreE tr) : noExactE tr := by
  intro e he
  have := h e he
  cases e <;> simp_all [Ev.isStore, Ev.isExactStore]

/-- Helper: mate-distance pruning only tightens the window — the alpha
passed on never drops, the beta never rises. -/
theorem entry_window {env : Env} {ply alpha beta rd : Int} {isPv : Bool}
    {n : ℕ} {pos : List PosOp} {pv : Int} :
    ∀ st, entryStage env ply alpha beta rd isPv n pos pv = Sum.inr st →
      alpha ≤ st.alpha ∧ st.beta ≤ beta := by
  intro st
  simp only [entryStage]
  repeat' split
  all_goals intro hx
  all_goals cases hx
  all_goals constructor <;> first | omega | simp_all <;> omega

/-- Helper: the pv head handed to the rest of the frame is the incoming
one at the root and 0 otherwise. -/
theorem entry_pv {env : Env} {ply alpha beta rd : Int} {isPv : Bool}
    {n : ℕ} {pos : List PosOp} {pv : Int} :
    ∀ st, entryStage env ply alpha beta rd isPv n pos pv = Sum.inr st →
      st.pvHead = (if ply ≠ 0 then 0 else pv) := by
  intro st
  simp only [entryStage]
  repeat' split
  all_goals intro hx
  all_goals cases hx
  all_goals rfl

/-- Helper: entry exits do not write the pv head at the root. -/
theorem entry_inl_pv_root {env : Env} {ply alpha beta rd : Int} {isPv : Bool}
    {n : ℕ} {pos : List PosOp} {pv : Int} (hply : ply = 0) :
    ∀ o, entryStage env ply alpha beta rd isPv n pos pv = Sum.inl o →
      o.pvHead = pv := by
  intro o
  simp only [entryStage]
  repeat' split
  all_goals intro hx
  all_goals cases hx
  all_goals simp_all

/-- Helper: away from the root, every entry exit taken after the abort
check leaves the pv head cleared. -/
theorem entry_inl_pv_deep {env : Env} {ply alpha beta rd : Int} {isPv : Bool}
    {n : ℕ} {pos : List PosOp} {pv : Int} (hply : ply ≠ 0)
    (hab : ¬ (env.abort n = true ∧ rd > 1)) :
    ∀ o, entryStage env ply alpha beta rd isPv n pos pv = Sum.inl o →
      o.pvHead = 0 := by
  intro o
  simp only [entryStage]
  repeat' split
  all_goals intro hx
  all_goals cases hx
  all_goals simp_all

/-- Helper: the entry stage stores nothing. -/
theorem entry_nostore {env : Env} {ply alpha beta rd : Int} {isPv : Bool}
    {n : ℕ} {pos : List PosOp} {pv : Int} :
    ∀ st, entryStage env ply alpha beta rd isPv n pos pv = Sum.inr st →
      noStoreE st.trace := by
  intro st
  simp only [entryStage]
  repeat' split
  all_goals intro hx
  all_goals cases hx
  all_goals simp [noStoreE_append, noStoreE_cons, noStoreE_nil, Ev.isStore]

/-- Helper: the entry stage never exits with the no-legal-move tag. -/
theorem entry_not_noLegal {env : Env} {ply alpha beta rd : Int} {isPv : Bool}
    {n : ℕ} {pos : List PosOp} {pv : Int} :
    ∀ o, entryStage env ply alpha beta rd isPv n pos pv = Sum.inl o →
      o.tag ≠ ExitTag.noLegal := by
  intro o
  simp only [entryStage]
  repeat' split
  all_goals intro hx
  all_goals cases hx
  all_goals simp

/-- Helper: pv-head and store discipline of the null-move verification. -/
theorem nullVerify_pv {env : Env} {ply alpha beta : Int}
    {newDepth score1 move1 refSq rd : Int} {n : ℕ} {tr : List Ev}
    {pos : List PosOp} {pv : Int} (hns : noStoreE tr) :
    (∀ o, nullVerify env ply alpha beta newDepth score1 move1 refSq rd n tr pos pv
        = Sum.inl o → noStoreE o.trace ∧ (noPvTouch o.trace → o.pvHead = pv ∧ noPvTouch tr)) ∧
    (∀ st, nullVerify env ply alpha beta newDepth score1 move1 refSq rd n tr pos pv
        = Sum.inr st → noStoreE st.trace ∧ (noPvTouch st.trace → st.pvHead = pv ∧ noPvTouch tr)) := by
  constructor
  all_goals intro x hx
  all_goals simp only [nullVerify] at hx
  all_goals repeat' split at hx
  all_goals cases hx
  all_goals constructor
  all_goals simp_all [noStoreE_append, noStoreE_cons, noStoreE_nil,
    noPvTouch_append, noPvTouch_cons, noPvTouch_nil, Ev.isStore, Ev.isPvTouch,
    Option.getD]

/-- Helper: pv-head and store discipline of the null-block tail. -/
theorem nullFinish_pv {env : Env} {ply alpha beta : Int}
    {newDepth score1 move1 refSq rd : Int} {n : ℕ} {tr : List Ev}
    {pos : List PosOp} {pv : Int} (hns : noStoreE tr) :
    (∀ o, nullFinish env ply alpha beta newDepth score1 move1 refSq rd n tr pos pv
        = Sum.inl o → noStoreE o.trace ∧ (noPvTouch o.trace → o.pvHead = pv ∧ noPvTouch tr)) ∧
    (∀ st, nullFinish env ply alpha beta newDepth score1 move1 refSq rd n tr pos pv
        = Sum.inr st → noStoreE st.trace ∧ (noPvTouch st.trace → st.pvHead = pv ∧ noPvTouch tr)) := by
  constructor
  all_goals intro x hx
  all_goals simp only [nullFinish] at hx
  all_goals repeat' split at hx
  all_goals first
    | (exact (nullVerify_pv hns).1 x hx)
    | (exact (nullVerify_pv hns).2 x hx)
    | (cases hx
       all_goals exact ⟨hns, fun h => ⟨rfl, h⟩⟩)
    | cases hx

/-- Helper: pv-head and store discipline of the null search. -/
theorem nullRun_pv {env : Env} {ply alpha beta rd : Int}
    {newDepth move1 : Int} {n : ℕ} {tr : List Ev} {pos : List PosOp}
    {pv : Int} (hns : noStoreE tr) :
    (∀ o, nullRun env ply alpha beta rd newDepth move1 n tr pos pv
        = Sum.inl o → noStoreE o.trace ∧ (noPvTouch o.trace → o.pvHead = pv ∧ noPvTouch tr)) ∧
    (∀ st, nullRun env ply alpha beta rd newDepth move1 n tr pos pv
        = Sum.inr st → noStoreE st.trace ∧ (noPvTouch st.trace → st.pvHead = pv ∧ noPvTouch tr)) := by
  have hns5 : noStoreE (tr ++ [Ev.doNull] ++ [Ev.ttProbe] ++ [Ev.undoNull]
      ++ [Ev.abortCheck (env.abort (n + 1 + 1))]) := by
    simp_all [noStoreE_append, noStoreE_cons, noStoreE_nil, Ev.isStore]
  constructor
  all_goals intro x hx
  all_goals simp only [nullRun] at hx
  all_goals repeat' split at hx
  all_goals first
    | (refine ((nullFinish_pv hns5).1 x hx).imp id ?_
       intro hcl hnp
       rcases hcl hnp with ⟨h1, h2⟩
       refine ⟨h1, ?_⟩
       simp_all [noPvTouch_append, noPvTouch_cons, noPvTouch_nil, Ev.isPvTouch])
    | (refine ((nullFinish_pv hns5).2 x hx).imp id ?_
       intro hcl hnp
       rcases hcl hnp with ⟨h1, h2⟩
       refine ⟨h1, ?_⟩
       simp_all [noPvTouch_append, noPvTouch_cons, noPvTouch_nil, Ev.isPvTouch])
    | (cases hx
       all_goals constructor
       all_goals simp_all [noStoreE_append, noStoreE_cons, noStoreE_nil,
         noPvTouch_append, noPvTouch_cons, noPvTouch_nil, Ev.isStore, Ev.isPvTouch])
    | cases hx

/-- Helper: pv-head and store discipline of the null-move block. -/
theorem nullBlock_pv {env : Env} {ply depth : Int} {wasNull : Bool}
    {alpha beta evalv rd : Int} {flPrunable : Bool} {n : ℕ} {tr : List Ev}
    {pos : List PosOp} {pv move : Int} (hns : noStoreE tr) :
    (∀ o, nullBlock env ply depth wasNull alpha beta evalv rd flPrunable n tr pos pv move
        = Sum.inl o → noStoreE o.trace ∧ (noPvTouch o.trace → o.pvHead = pv ∧ noPvTouch tr)) ∧
    (∀ st, nullBlock env ply depth wasNull alpha beta evalv rd flPrunable n tr pos pv move
        = Sum.inr st → noStoreE st.trace ∧ (noPvTouch st.trace → st.pvHead = pv ∧ noPvTouch tr)) := by
  have hns1 : noStoreE (tr ++ [Ev.ttProbe]) := by
    simp_all [noStoreE_append, noStoreE_cons, noStoreE_nil, Ev.isStore]
  constructor
  all_goals intro x hx
  all_goals simp only [nullBlock] at hx
  all_goals repeat' split at hx
  all_goals first
    | (refine ((nullRun_pv hns1).1 x hx).imp id ?_
       intro hcl hnp
       rcases hcl hnp with ⟨h1, h2⟩
       refine ⟨h1, ?_⟩
       simp_all [noPvTouch_append, noPvTouch_cons, noPvTouch_nil, Ev.isPvTouch])
    | (refine ((nullRun_pv hns1).2 x hx).imp id ?_
       intro hcl hnp
       rcases hcl hnp with ⟨h1, h2⟩
       refine ⟨h1, ?_⟩
       simp_all [noPvTouch_append, noPvTouch_cons, noPvTouch_nil, Ev.isPvTouch])
    | (cases hx
       all_goals constructor
       all_goals simp_all [noStoreE_append, noStoreE_cons, noStoreE_nil,
         noPvTouch_append, noPvTouch_cons, noPvTouch_nil, Ev.isStore, Ev.isPvTouch])
    | cases hx

/-- Helper: razoring adds no events and keeps the pv head. -/
theorem razorStage_pv {env : Env} {ply depth : Int} {wasNull : Bool}
    {beta evalv move : Int} {flPrunable : Bool} {n : ℕ} {tr : List Ev}
    {pos : List PosOp} {pv : Int} :
    ∀ o, razorStage env ply depth wasNull beta evalv move flPrunable n tr pos pv
      = Sum.inl o → o.trace = tr ∧ o.pvHead = pv := by
  intro o
  simp only [razorStage]
  repeat' split
  all_goals intro hx
  all_goals cases hx
  all_goals exact ⟨rfl, rfl⟩

/-- Helper: pv-head and store discipline of internal iterative deepening. -/
theorem iidStage_pv {env : Env} {ply depth move : Int} {isPv flCheck : Bool}
    {n : ℕ} {tr : List Ev} {pv : Int} (hns : noStoreE tr) :
    noStoreE (iidStage env ply depth move isPv flCheck n tr pv).trace ∧
    (noPvTouch (iidStage env ply depth move isPv flCheck n tr pv).trace →
      (iidStage env ply depth move isPv flCheck n tr pv).pvHead = pv ∧ noPvTouch tr) := by
  simp only [iidStage]
  repeat' split
  all_goals constructor
  all_goals simp_all [noStoreE_append, noStoreE_cons, noStoreE_nil,
    noPvTouch_append, noPvTouch_cons, noPvTouch_nil, Ev.isStore, Ev.isPvTouch,
    Option.getD]

/-- Helper: pv-head, store and window discipline of the pre-loop
continuation. -/
theorem preCont_pv {env : Env} {ply depth : Int} {wasNull isPv : Bool}
    {lastMove lastCaptSq rd : Int} {pos : List PosOp}
    {alpha beta move pvHead : Int} {tr : List Ev} {flCheck flPrunable : Bool}
    {evalv : Int} {n : ℕ} (hns : noStoreE tr) :
    (∀ o, preCont env ply depth wasNull isPv lastMove lastCaptSq rd pos
        alpha beta move pvHead tr flCheck flPrunable evalv n = Sum.inl o →
        noStoreE o.trace ∧ (noPvTouch o.trace → o.pvHead = pvHead ∧ noPvTouch tr)) ∧
    (∀ mid, preCont env ply depth wasNull isPv lastMove lastCaptSq rd pos
        alpha beta move pvHead tr flCheck flPrunable evalv n = Sum.inr mid →
        mid.alpha = alpha ∧ mid.beta = beta ∧
        noStoreE mid.trace ∧ (noPvTouch mid.trace → mid.pvHead = pvHead ∧ noPvTouch tr)) := by
  constructor
  all_goals intro x hx
  all_goals simp only [preCont] at hx
  all_goals repeat' split at hx
  all_goals first
    | (cases hx
       all_goals first
         | (exact ⟨hns, fun h => ⟨rfl, h⟩⟩)
         | (exact (nullBlock_pv hns).1 _ (by assumption))
         | ( -- razor exit after the null block
            rcases (nullBlock_pv hns).2 _ (by assumption) with ⟨h1, h2⟩
            rcases razorStage_pv _ (by assumption) with ⟨h3, h4⟩
            rw [h3, h4]
            exact ⟨h1, h2⟩)
         | ( -- continuation through razoring and IID
            rcases (nullBlock_pv hns).2 _ (by assumption) with ⟨h1, h2⟩
            rcases iidStage_pv h1 with ⟨h3, h4⟩
            refine ⟨rfl, rfl, h3, ?_⟩
            intro hnp
            rcases h4 hnp with ⟨h5, h6⟩
            rcases h2 h6 with ⟨h7, h8⟩
            exact ⟨by rw [h5, h7], h8⟩))
    | cases hx

/-- Helper: pv-head, store and window discipline of the pre-loop stage. -/
theorem preStage_pv {env : Env} {ply depth : Int} {wasNull isPv : Bool}
    {lastMove lastCaptSq rd : Int} {pos : List PosOp} {st : EntrySt}
    (hns : noStoreE st.trace) :
    (∀ o, preStage env ply depth wasNull isPv lastMove lastCaptSq rd pos st = Sum.inl o →
        noStoreE o.trace ∧ (noPvTouch o.trace → o.pvHead = st.pvHead ∧ noPvTouch st.trace)) ∧
    (∀ mid, preStage env ply depth wasNull isPv lastMove lastCaptSq rd pos st = Sum.inr mid →
        mid.alpha = st.alpha ∧ mid.beta = st.beta ∧
        noStoreE mid.trace ∧ (noPvTouch mid.trace → mid.pvHead = st.pvHead ∧ noPvTouch st.trace)) := by
  constructor
  all_goals intro x hx
  all_goals simp only [preStage] at hx
  all_goals repeat' split at hx
  all_goals first
    | (exact (preCont_pv hns).1 x hx)
    | (exact (preCont_pv hns).2 x hx)

/-- Helper: splitting the EXACT-store bound across an append. -/
theorem exactOk_append {a0 b : Int} {x y : List Ev} :
    ExactOk a0 b (x ++ y) ↔ ExactOk a0 b x ∧ ExactOk a0 b y := by
  simp [ExactOk, List.mem_append, or_imp, forall_and]

/-- Helper: splitting the EXACT-store bound at a cons cell. -/
theorem exactOk_cons {a0 b : Int} {e : Ev} {x : List Ev} :
    ExactOk a0 b (e :: x) ↔ evExactOk a0 b e ∧ ExactOk a0 b x := by
  simp [ExactOk, List.mem_cons, or_imp, forall_and, forall_eq]

/-- Helper: the empty trace satisfies the EXACT-store bound. -/
theorem exactOk_nil {a0 b : Int} : ExactOk a0 b [] := by
  simp [ExactOk]

/-- Helper: a replicated non-store event satisfies the EXACT-store
bound. -/
theorem exactOk_replicate {a0 b : Int} {e : Ev} (h : evExactOk a0 b e)
    (k : ℕ) : ExactOk a0 b (List.replicate k e) := by
  intro e2 he2
  rw [List.eq_of_mem_replicate he2]
  exact h

/-- Helper: a store-free trace satisfies the EXACT-store bound. -/
theorem exactOk_of_noStoreE {a0 b : Int} {tr : List Ev} (h : noStoreE tr) :
    ExactOk a0 b tr := by
  intro e he m s d p hs
  have := h e he
  rw [hs] at this
  simp [Ev.isStore] at this

/-- Helper: any event other than an EXACT store satisfies the per-event
EXACT-store bound. -/
theorem evExactOk_of_not {a0 b : Int} {e : Ev} (h : Ev.isExactStore e = false) :
    evExactOk a0 b e := by
  intro m s d p hs
  rw [hs] at h
  simp [Ev.isExactStore] at h

/-- Helper: the PVS step only reads the abort flag; its events are
store-free and pv-free. -/
theorem pvsStep_evs_shape (env : Env) (best alpha beta newDepth : Int) (n : ℕ) :
    noStoreE (pvsStep env best alpha beta newDepth n).evs ∧
    noPvTouch (pvsStep env best alpha beta newDepth n).evs := by
  simp only [pvsStep]
  repeat' split
  all_goals constructor
  all_goals simp [noStoreE_cons, noStoreE_nil, noPvTouch_cons, noPvTouch_nil,
    Ev.isStore, Ev.isPvTouch]

/-- Helper: a replicated event is store-free iff the event is (or the
count is zero). -/
theorem noStoreE_replicate_iff {k : ℕ} {e : Ev} :
    noStoreE (List.replicate k e) ↔ (k ≠ 0 → Ev.isStore e = false) := by
  constructor
  · intro h hk
    exact h e (List.mem_replicate.2 ⟨hk, rfl⟩)
  · intro h e2 he2
    rcases List.mem_replicate.1 he2 with ⟨hk, he⟩
    rw [he]
    exact h hk

/-- Helper: a replicated event touches no pv iff the event does not (or
the count is zero). -/
theorem noPvTouch_replicate_iff {k : ℕ} {e : Ev} :
    noPvTouch (List.replicate k e) ↔ (k ≠ 0 → Ev.isPvTouch e = false) := by
  constructor
  · intro h hk
    exact h e (List.mem_replicate.2 ⟨hk, rfl⟩)
  · intro h e2 he2
    rcases List.mem_replicate.1 he2 with ⟨hk, he⟩
    rw [he]
    exact h hk

/-- Helper: the unmake tail of one loop iteration preserves the loop
invariant, the store discipline and the pv-head tracking, and its exits
satisfy the frame-exit facts. -/
theorem stepUndo_main {c : LCtx} {a0 move : Int} {flFut : Bool}
    {mvTried quietTried : ℕ} {alpha best pvHead : Int} {tr : List Ev} {ps : List PosOp}
    {score : Int} {n : ℕ}
    (hinv : Inv a0 c.beta alpha best pvHead) (hns : noStoreE tr) :
    (∀ o, stepUndo c move flFut mvTried quietTried alpha best pvHead tr ps score n
        = Sum.inl o → MainInl c a0 pvHead tr o) ∧
    (∀ st2, stepUndo c move flFut mvTried quietTried alpha best pvHead tr ps score n
        = Sum.inr st2 → MainInr c a0 pvHead tr st2) := by
  have hexa : ExactOk a0 c.beta tr := exactOk_of_noStoreE hns
  simp only [Inv] at hinv
  obtain ⟨h1, h2, h3⟩ := hinv
  constructor
  all_goals intro x hx
  all_goals simp only [stepUndo] at hx
  all_goals repeat' split at hx
  all_goals cases hx
  all_goals simp only [MainInl, MainInr, Inv]
  all_goals first
    | ( -- exit objects
       refine ⟨?_, ?_, ?_⟩
       · simp only [exactOk_append, exactOk_cons]
         repeat' first
           | exact hexa
           | exact exactOk_nil
           | exact exactOk_replicate (evExactOk_of_not (by simp [Ev.isExactStore])) _
           | exact evExactOk_of_not (by simp [Ev.isExactStore])
           | constructor
       · intro htag
         simp at htag
       · intro hnp
         simp_all [noPvTouch_append, noPvTouch_cons, noPvTouch_nil,
           noPvTouch_replicate_iff, Ev.isPvTouch])
    | ( -- continued loop states
       refine ⟨⟨?_, ?_, ?_⟩, ?_, ?_⟩
       · omega
       · first | omega | (rcases h2 with h2 | h2 <;> omega)
       · intro h0
         first | omega | (have h4 := h3 h0; omega)
       · simp [hns, noStoreE_append, noStoreE_cons, noStoreE_nil, Ev.isStore]
       · intro hnp
         simp_all [noPvTouch_append, noPvTouch_cons, noPvTouch_nil, Ev.isPvTouch])

/-- Helper: the frame-exit facts relative to an extended running trace
imply the ones relative to the original trace. -/
theorem MainInl_drop {c : LCtx} {a0 pvh : Int} {tr ex : List Ev} {o : Out}
    (h : MainInl c a0 pvh (tr ++ ex) o) : MainInl c a0 pvh tr o :=
  ⟨h.1, h.2.1, fun hnp => ⟨(h.2.2 hnp).1, (noPvTouch_append.1 (h.2.2 hnp).2).1⟩⟩

/-- Helper: the loop-state facts relative to an extended running trace
imply the ones relative to the original trace. -/
theorem MainInr_drop {c : LCtx} {a0 pvh : Int} {tr ex : List Ev} {st2 : LoopSt}
    (h : MainInr c a0 pvh (tr ++ ex) st2) : MainInr c a0 pvh tr st2 :=
  ⟨h.1, h.2.1, fun hnp => ⟨(h.2.2 hnp).1, (noPvTouch_append.1 (h.2.2 hnp).2).1⟩⟩

/-- Helper: the PVS block with its re-search preserves the loop facts. -/
theorem stepPvs_main {c : LCtx} {a0 move mvType : Int} {flFut : Bool}
    {mvHist : Int} {mvTried quietTried : ℕ} {alpha best pvHead : Int}
    {tr : List Ev} {ps : List PosOp} {red nd : Int} {n : ℕ}
    (hinv : Inv a0 c.beta alpha best pvHead) (hns : noStoreE tr) :
    (∀ o, stepPvs c move mvType flFut mvHist mvTried quietTried alpha best pvHead tr ps red nd n
        = Sum.inl o → MainInl c a0 pvHead tr o) ∧
    (∀ st2, stepPvs c move mvType flFut mvHist mvTried quietTried alpha best pvHead tr ps red nd n
        = Sum.inr st2 → MainInr c a0 pvHead tr st2) := by
  have hns1 : noStoreE (tr ++ (pvsStep c.env best alpha c.beta nd n).evs) := by
    simp [noStoreE_append, hns, pvsStep_evs_shape]
  have hns2 : noStoreE (tr ++ (pvsStep c.env best alpha c.beta nd n).evs
      ++ (pvsStep c.env best alpha c.beta (nd + red)
           (pvsStep c.env best alpha c.beta nd n).n).evs) := by
    simp [noStoreE_append, hns, pvsStep_evs_shape]
  constructor
  all_goals intro x hx
  all_goals simp only [stepPvs] at hx
  all_goals split at hx
  all_goals first
    | (exact MainInl_drop (MainInl_drop ((stepUndo_main hinv hns2).1 x hx))
       )
    | (exact MainInl_drop ((stepUndo_main hinv hns1).1 x hx))
    | (exact MainInr_drop (MainInr_drop ((stepUndo_main hinv hns2).2 x hx)))
    | (exact MainInr_drop ((stepUndo_main hinv hns1).2 x hx))

/-- Helper: the bad-capture marginal reduction preserves the loop facts. -/
theorem stepLmr2_main {c : LCtx} {a0 move mvType : Int} {flFut : Bool}
    {mvHist : Int} {mvTried quietTried : ℕ} {alpha best pvHead : Int}
    {tr : List Ev} {ps : List PosOp} {red nd : Int} {n : ℕ}
    (hinv : Inv a0 c.beta alpha best pvHead) (hns : noStoreE tr) :
    (∀ o, stepLmr2 c move mvType flFut mvHist mvTried quietTried alpha best pvHead tr ps red nd n
        = Sum.inl o → MainInl c a0 pvHead tr o) ∧
    (∀ st2, stepLmr2 c move mvType flFut mvHist mvTried quietTried alpha best pvHead tr ps red nd n
        = Sum.inr st2 → MainInr c a0 pvHead tr st2) := by
  constructor
  all_goals intro x hx
  all_goals simp only [stepLmr2] at hx
  all_goals repeat' split at hx
  all_goals first
    | (exact (stepPvs_main hinv hns).1 x hx)
    | (exact (stepPvs_main hinv hns).2 x hx)

/-- Helper: the bad-history reduction increment preserves the loop facts. -/
theorem stepLmr1c_main {c : LCtx} {a0 move mvType : Int} {flFut : Bool}
    {mvHist : Int} {mvTried quietTried : ℕ} {alpha best pvHead : Int}
    {tr : List Ev} {ps : List PosOp} {red2 nd : Int} {n : ℕ}
    (hinv : Inv a0 c.beta alpha best pvHead) (hns : noStoreE tr) :
    (∀ o, stepLmr1c c move mvType flFut mvHist mvTried quietTried alpha best pvHead tr ps red2 nd n
        = Sum.inl o → MainInl c a0 pvHead tr o) ∧
    (∀ st2, stepLmr1c c move mvType flFut mvHist mvTried quietTried alpha best pvHead tr ps red2 nd n
        = Sum.inr st2 → MainInr c a0 pvHead tr st2) := by
  constructor
  all_goals intro x hx
  all_goals simp only [stepLmr1c] at hx
  all_goals repeat' split at hx
  all_goals first
    | (exact (stepLmr2_main hinv hns).1 x hx)
    | (exact (stepLmr2_main hinv hns).2 x hx)

/-- Helper: late-move reduction of normal moves preserves the loop facts. -/
theorem stepLmr1_main {c : LCtx} {a0 move mvType : Int} {flFut : Bool}
    {mvHist : Int} {mvTried quietTried : ℕ} {alpha best pvHead : Int}
    {tr : List Ev} {ps : List PosOp} {sherwinFlag : Bool} {nd : Int} {n : ℕ}
    (hinv : Inv a0 c.beta alpha best pvHead) (hns : noStoreE tr) :
    (∀ o, stepLmr1 c move mvType flFut mvHist mvTried quietTried alpha best pvHead tr ps sherwinFlag nd n
        = Sum.inl o → MainInl c a0 pvHead tr o) ∧
    (∀ st2, stepLmr1 c move mvType flFut mvHist mvTried quietTried alpha best pvHead tr ps sherwinFlag nd n
        = Sum.inr st2 → MainInr c a0 pvHead tr st2) := by
  constructor
  all_goals intro x hx
  all_goals simp only [stepLmr1] at hx
  all_goals repeat' split at hx
  all_goals first
    | (exact (stepLmr1c_main hinv hns).1 x hx)
    | (exact (stepLmr1c_main hinv hns).2 x hx)
    | (exact (stepLmr2_main hinv hns).1 x hx)
    | (exact (stepLmr2_main hinv hns).2 x hx)

/-- Helper: the sherwin probe preserves the loop facts. -/
theorem stepSher_main {c : LCtx} {a0 move mvType : Int} {flFut : Bool}
    {mvHist : Int} {mvTried quietTried : ℕ} {alpha best pvHead : Int}
    {tr : List Ev} {ps : List PosOp} {nd : Int} {n : ℕ}
    (hinv : Inv a0 c.beta alpha best pvHead) (hns : noStoreE tr) :
    (∀ o, stepSher c move mvType flFut mvHist mvTried quietTried alpha best pvHead tr ps nd n
        = Sum.inl o → MainInl c a0 pvHead tr o) ∧
    (∀ st2, stepSher c move mvType flFut mvHist mvTried quietTried alpha best pvHead tr ps nd n
        = Sum.inr st2 → MainInr c a0 pvHead tr st2) := by
  constructor
  all_goals intro x hx
  all_goals simp only [stepSher] at hx
  all_goals repeat' split at hx
  all_goals first
    | (exact (stepLmr1_main hinv hns).1 x hx)
    | (exact (stepLmr1_main hinv hns).2 x hx)

/-- Helper: late-move pruning preserves the loop facts. -/
theorem stepLmp_main {c : LCtx} {a0 move mvType : Int} {flFut : Bool}
    {mvHist : Int} {mvTried quietTried : ℕ} {alpha best pvHead : Int}
    {tr : List Ev} {ps : List PosOp} {nd : Int} {n : ℕ}
    (hinv : Inv a0 c.beta alpha best pvHead) (hns : noStoreE tr) :
    (∀ o, stepLmp c move mvType flFut mvHist mvTried quietTried alpha best pvHead tr ps nd n
        = Sum.inl o → MainInl c a0 pvHead tr o) ∧
    (∀ st2, stepLmp c move mvType flFut mvHist mvTried quietTried alpha best pvHead tr ps nd n
        = Sum.inr st2 → MainInr c a0 pvHead tr st2) := by
  constructor
  all_goals intro x hx
  all_goals simp only [stepLmp] at hx
  all_goals repeat' split at hx
  all_goals first
    | (exact (stepSher_main hinv hns).1 x hx)
    | (exact (stepSher_main hinv hns).2 x hx)
    | (cases hx
       all_goals refine ⟨hinv, ?_, ?_⟩
       · simp [hns, noStoreE_append, noStoreE_cons, noStoreE_nil, Ev.isStore]
       · intro hnp
         simp_all [noPvTouch_append, noPvTouch_cons, noPvTouch_nil, Ev.isPvTouch])
    | cases hx

/-- Helper: futility pruning preserves the loop facts. -/
theorem stepFut_main {c : LCtx} {a0 move mvType : Int} {flFut : Bool}
    {mvHist : Int} {mvTried quietTried : ℕ} {alpha best pvHead : Int}
    {tr : List Ev} {ps : List PosOp} {nd : Int} {n : ℕ}
    (hinv : Inv a0 c.beta alpha best pvHead) (hns : noStoreE tr) :
    (∀ o, stepFut c move mvType flFut mvHist mvTried quietTried alpha best pvHead tr ps nd n
        = Sum.inl o → MainInl c a0 pvHead tr o) ∧
    (∀ st2, stepFut c move mvType flFut mvHist mvTried quietTried alpha best pvHead tr ps nd n
        = Sum.inr st2 → MainInr c a0 pvHead tr st2) := by
  constructor
  all_goals intro x hx
  all_goals simp only [stepFut] at hx
  all_goals repeat' split at hx
  all_goals first
    | (exact (stepLmp_main hinv hns).1 x hx)
    | (exact (stepLmp_main hinv hns).2 x hx)
    | (cases hx
       all_goals refine ⟨hinv, ?_, ?_⟩
       · simp [hns, noStoreE_append, noStoreE_cons, noStoreE_nil, Ev.isStore]
       · intro hnp
         simp_all [noPvTouch_append, noPvTouch_cons, noPvTouch_nil, Ev.isPvTouch])
    | cases hx

/-- Helper: the recapture and pawn-push extensions preserve the loop
facts. -/
theorem stepExtB_main {c : LCtx} {a0 move mvType : Int} {flFut : Bool}
    {mvHist : Int} {mvTried quietTried : ℕ} {alpha best pvHead : Int}
    {tr : List Ev} {ps : List PosOp} {nd1 : Int} {n : ℕ}
    (hinv : Inv a0 c.beta alpha best pvHead) (hns : noStoreE tr) :
    (∀ o, stepExtB c move mvType flFut mvHist mvTried quietTried alpha best pvHead tr ps nd1 n
        = Sum.inl o → MainInl c a0 pvHead tr o) ∧
    (∀ st2, stepExtB c move mvType flFut mvHist mvTried quietTried alpha best pvHead tr ps nd1 n
        = Sum.inr st2 → MainInr c a0 pvHead tr st2) := by
  constructor
  all_goals intro x hx
  all_goals simp only [stepExtB] at hx
  all_goals repeat' split at hx
  all_goals first
    | (exact (stepFut_main hinv hns).1 x hx)
    | (exact (stepFut_main hinv hns).2 x hx)

/-- Helper: the check extension preserves the loop facts. -/
theorem stepExtA_main {c : LCtx} {a0 move mvType : Int} {flFut : Bool}
    {mvHist : Int} {mvTried quietTried : ℕ} {alpha best pvHead : Int}
    {tr : List Ev} {ps : List PosOp} {n : ℕ}
    (hinv : Inv a0 c.beta alpha best pvHead) (hns : noStoreE tr) :
    (∀ o, stepExtA c move mvType flFut mvHist mvTried quietTried alpha best pvHead tr ps n
        = Sum.inl o → MainInl c a0 pvHead tr o) ∧
    (∀ st2, stepExtA c move mvType flFut mvHist mvTried quietTried alpha best pvHead tr ps n
        = Sum.inr st2 → MainInr c a0 pvHead tr st2) := by
  constructor
  all_goals intro x hx
  all_goals simp only [stepExtA] at hx
  all_goals repeat' split at hx
  all_goals first
    | (exact (stepExtB_main hinv hns).1 x hx)
    | (exact (stepExtB_main hinv hns).2 x hx)

/-- Helper: the terminal stage after the move loop: every EXACT store it
performs scores strictly inside `(a0, bb)`, a no-legal-move exit is
store-free with the mate or draw score, and the pv head is returned
unchanged. -/
theorem finStage_main {env : Env} {ply depth : Int} {flCheck : Bool}
    {pos : List PosOp} {st : LoopSt} {a0 bb : Int}
    (hinv : Inv a0 bb st.alpha st.best st.pvHead) (hns : noStoreE st.trace) :
    ExactOk a0 bb (finStage env ply depth flCheck pos st).trace ∧
    ((finStage env ply depth flCheck pos st).tag = ExitTag.noLegal →
      noStoreE (finStage env ply depth flCheck pos st).trace ∧ ∃ k,
        (env.inCheck k = true ∧
          (finStage env ply depth flCheck pos st).res = some (-MATE + ply)) ∨
        (env.inCheck k = false ∧
          (finStage env ply depth flCheck pos st).res = some (env.drawScore (k + 1)))) ∧
    (noPvTouch (finStage env ply depth flCheck pos st).trace →
      (finStage env ply depth flCheck pos st).pvHead = st.pvHead ∧ noPvTouch st.trace) := by
  simp only [Inv] at hinv
  obtain ⟨h1, h2, h3⟩ := hinv
  simp only [finStage]
  repeat' split
  all_goals refine ⟨?_, ?_, ?_⟩
  all_goals first
    | (intro htag
       refine ⟨hns, ⟨st.n, Or.inl ⟨?_, rfl⟩⟩⟩
       assumption)
    | (intro htag
       refine ⟨hns, ⟨st.n, Or.inr ⟨?_, rfl⟩⟩⟩
       simp_all)
    | exact exactOk_of_noStoreE hns
    | ( -- the branches that store
       simp only [exactOk_append, exactOk_cons]
       repeat' first
         | exact exactOk_of_noStoreE hns
         | exact exactOk_nil
         | exact exactOk_replicate (evExactOk_of_not (by simp [Ev.isExactStore])) _
         | (intro m s d p heq
            injection heq with e1 e2 e3 e4 e5
            subst e2
            rcases h2 with h2 | h2
            · simp_all
            · exact ⟨h3 (by assumption), h2⟩)
         | exact evExactOk_of_not (by simp [Ev.isExactStore])
         | constructor
       done)
    | (intro htag
       simp at htag
       done)
    | (intro hnp
       simp_all [noPvTouch_append, noPvTouch_cons, noPvTouch_nil,
         noPvTouch_replicate_iff, Ev.isPvTouch]
       done)

/-- Helper: one full iteration of the move loop preserves the loop facts. -/
theorem loopBody_main {c : LCtx} {a0 : Int} {st : LoopSt}
    (hinv : Inv a0 c.beta st.alpha st.best st.pvHead) (hns : noStoreE st.trace) :
    (∀ o, loopBody c st = Sum.inl o → MainInl c a0 st.pvHead st.trace o) ∧
    (∀ st2, loopBody c st = Sum.inr st2 → MainInr c a0 st.pvHead st.trace st2) := by
  have hns1 : noStoreE (st.trace ++ [Ev.doMove (c.env.nextMove st.n).1]) := by
    simp [noStoreE_append, noStoreE_cons, noStoreE_nil, hns, Ev.isStore]
  constructor
  all_goals intro x hx
  all_goals simp only [loopBody] at hx
  all_goals repeat' split at hx
  all_goals first
    | (cases hx
       simp only [MainInl]
       exact finStage_main hinv hns)
    | (exact MainInl_drop ((stepExtA_main hinv hns1).1 x hx))
    | (exact MainInr_drop ((stepExtA_main hinv hns1).2 x hx))
    | (cases hx
       refine ⟨hinv, ?_, ?_⟩
       · simp [hns, noStoreE_append, noStoreE_cons, noStoreE_nil, Ev.isStore]
       · intro hnp
         simp_all [noPvTouch_append, noPvTouch_cons, noPvTouch_nil, Ev.isPvTouch])
    | cases hx

/-- Helper: the whole move loop: every EXACT store obeys the `(a0, beta)`
bounds, the no-legal-move exit is store-free with the mate or draw score,
and a pv-untouched run leaves the pv head as the loop found it. -/
theorem loopStage_main (c : LCtx) (a0 : Int) :
    ∀ (fuel : ℕ) (st : LoopSt), Inv a0 c.beta st.alpha st.best st.pvHead →
      noStoreE st.trace →
      ExactOk a0 c.beta (loopStage c fuel st).trace ∧
      ((loopStage c fuel st).tag = ExitTag.noLegal →
        noStoreE (loopStage c fuel st).trace ∧ ∃ k,
          (c.env.inCheck k = true ∧
            (loopStage c fuel st).res = some (-MATE + c.ply)) ∨
          (c.env.inCheck k = false ∧
            (loopStage c fuel st).res = some (c.env.drawScore (k + 1)))) ∧
      (noPvTouch (loopStage c fuel st).trace →
        (loopStage c fuel st).pvHead = st.pvHead ∧ noPvTouch st.trace) := by
  intro fuel
  induction fuel with
  | zero =>
    intro st hinv hns
    refine ⟨exactOk_of_noStoreE hns, ?_, ?_⟩
    · intro htag
      simp [loopStage] at htag
    · intro hnp
      exact ⟨rfl, hnp⟩
  | succ f ih =>
    intro st hinv hns
    rcases hb : loopBody c st with o | st2
    · simp only [loopStage, hb]
      have h := (loopBody_main hinv hns).1 o hb
      simp only [MainInl] at h
      exact h
    · simp only [loopStage, hb]
      have h2 := (loopBody_main hinv hns).2 st2 hb
      simp only [MainInr] at h2
      obtain ⟨hinv2, hns2, hpv2⟩ := h2
      have h3 := ih st2 hinv2 hns2
      refine ⟨h3.1, h3.2.1, ?_⟩
      intro hnp
      obtain ⟨e1, e2⟩ := h3.2.2 hnp
      obtain ⟨e3, e4⟩ := hpv2 e2
      exact ⟨e1.trans e3, e4⟩

/-- Helper: entry exits carry no transposition store. -/
theorem entry_inl_nostore {env : Env} {ply alpha beta rd : Int} {isPv : Bool}
    {n : ℕ} {pos : List PosOp} {pv : Int} :
    ∀ o, entryStage env ply alpha beta rd isPv n pos pv = Sum.inl o →
      noStoreE o.trace := by
  intro o
  simp only [entryStage]
  repeat' split
  all_goals intro hx
  all_goals cases hx
  all_goals simp [noStoreE_append, noStoreE_cons, noStoreE_nil, Ev.isStore]

/-- Helper: the entry stage emits no pv-head write events. -/
theorem entry_notouch {env : Env} {ply alpha beta rd : Int} {isPv : Bool}
    {n : ℕ} {pos : List PosOp} {pv : Int} :
    ∀ st, entryStage env ply alpha beta rd isPv n pos pv = Sum.inr st →
      noPvTouch st.trace := by
  intro st
  simp only [entryStage]
  repeat' split
  all_goals intro hx
  all_goals cases hx
  all_goals simp [noPvTouch_append, noPvTouch_cons, noPvTouch_nil, Ev.isPvTouch]

/-- Helper: with no buffer-sharing callee writes, the null-move
verification emits no pv-head writes. -/
theorem nullVerify_notouch {env : Env} {ply alpha beta : Int}
    {newDepth score1 move1 refSq rd : Int} {n : ℕ} {tr : List Ev}
    {pos : List PosOp} {pv : Int} (hpv : ∀ k, env.pvEff k = none)
    (hnt : noPvTouch tr) :
    (∀ o, nullVerify env ply alpha beta newDepth score1 move1 refSq rd n tr pos pv
        = Sum.inl o → noPvTouch o.trace) ∧
    (∀ r, nullVerify env ply alpha beta newDepth score1 move1 refSq rd n tr pos pv
        = Sum.inr r → noPvTouch r.trace) := by
  constructor
  all_goals intro x hx
  all_goals simp only [nullVerify] at hx
  all_goals repeat' split at hx
  all_goals cases hx
  all_goals simp_all [noPvTouch_append, noPvTouch_cons, noPvTouch_nil, Ev.isPvTouch]

/-- Helper: with no buffer-sharing callee writes, the null-block tail
emits no pv-head writes. -/
theorem nullFinish_notouch {env : Env} {ply alpha beta : Int}
    {newDepth score1 move1 refSq rd : Int} {n : ℕ} {tr : List Ev}
    {pos : List PosOp} {pv : Int} (hpv : ∀ k, env.pvEff k = none)
    (hnt : noPvTouch tr) :
    (∀ o, nullFinish env ply alpha beta newDepth score1 move1 refSq rd n tr pos pv
        = Sum.inl o → noPvTouch o.trace) ∧
    (∀ r, nullFinish env ply alpha beta newDepth score1 move1 refSq rd n tr pos pv
        = Sum.inr r → noPvTouch r.trace) := by
  constructor
  all_goals intro x hx
  all_goals simp only [nullFinish] at hx
  all_goals repeat' split at hx
  all_goals first
    | (exact (nullVerify_notouch hpv hnt).1 x hx)
    | (exact (nullVerify_notouch hpv hnt).2 x hx)
    | (cases hx
       all_goals exact hnt)
    | cases hx

/-- Helper: with no buffer-sharing callee writes, the null search emits no
pv-head writes. -/
theorem nullRun_notouch {env : Env} {ply alpha beta rd : Int}
    {newDepth move1 : Int} {n : ℕ} {tr : List Ev} {pos : List PosOp}
    {pv : Int} (hpv : ∀ k, env.pvEff k = none) (hnt : noPvTouch tr) :
    (∀ o, nullRun env ply alpha beta rd newDepth move1 n tr pos pv
        = Sum.inl o → noPvTouch o.trace) ∧
    (∀ r, nullRun env ply alpha beta rd newDepth move1 n tr pos pv
        = Sum.inr r → noPvTouch r.trace) := by
  have hnt5 : noPvTouch (tr ++ [Ev.doNull] ++ [Ev.ttProbe] ++ [Ev.undoNull]
      ++ [Ev.abortCheck (env.abort (n + 1 + 1))]) := by
    simp_all [noPvTouch_append, noPvTouch_cons, noPvTouch_nil, Ev.isPvTouch]
  constructor
  all_goals intro x hx
  all_goals simp only [nullRun] at hx
  all_goals repeat' split at hx
  all_goals first
    | (exact (nullFinish_notouch hpv hnt5).1 x hx)
    | (exact (nullFinish_notouch hpv hnt5).2 x hx)
    | (cases hx
       all_goals simp_all [noPvTouch_append, noPvTouch_cons, noPvTouch_nil, Ev.isPvTouch])
    | cases hx

/-- Helper: with no buffer-sharing callee writes, the null-move block
emits no pv-head writes. -/
theorem nullBlock_notouch {env : Env} {ply depth : Int} {wasNull : Bool}
    {alpha beta evalv rd : Int} {flPrunable : Bool} {n : ℕ} {tr : List Ev}
    {pos : List PosOp} {pv move : Int} (hpv : ∀ k, env.pvEff k = none)
    (hnt : noPvTouch tr) :
    (∀ o, nullBlock env ply depth wasNull alpha beta evalv rd flPrunable n tr pos pv move
        = Sum.inl o → noPvTouch o.trace) ∧
    (∀ r, nullBlock env ply depth wasNull alpha beta evalv rd flPrunable n tr pos pv move
        = Sum.inr r → noPvTouch r.trace) := by
  have hnt1 : noPvTouch (tr ++ [Ev.ttProbe]) := by
    simp_all [noPvTouch_append, noPvTouch_cons, noPvTouch_nil, Ev.isPvTouch]
  constructor
  all_goals intro x hx
  all_goals simp only [nullBlock] at hx
  all_goals repeat' split at hx
  all_goals first
    | (exact (nullRun_notouch hpv hnt1).1 x hx)
    | (exact (nullRun_notouch hpv hnt1).2 x hx)
    | (cases hx
       all_goals simp_all [noPvTouch_append, noPvTouch_cons, noPvTouch_nil, Ev.isPvTouch])
    | cases hx

/-- Helper: with no buffer-sharing callee writes, internal iterative
deepening emits no pv-head writes. -/
theorem iidStage_notouch {env : Env} {ply depth move : Int}
    {isPv flCheck : Bool} {n : ℕ} {tr : List Ev} {pv : Int}
    (hpv : ∀ k, env.pvEff k = none) (hnt : noPvTouch tr) :
    noPvTouch (iidStage env ply depth move isPv flCheck n tr pv).trace := by
  simp only [iidStage]
  repeat' split
  all_goals simp_all [noPvTouch_append, noPvTouch_cons, noPvTouch_nil, Ev.isPvTouch]

/-- Helper: with no buffer-sharing callee writes, the pre-loop
continuation emits no pv-head writes. -/
theorem preCont_notouch {env : Env} {ply depth : Int} {wasNull isPv : Bool}
    {lastMove lastCaptSq rd : Int} {pos : List PosOp}
    {alpha beta move pvHead : Int} {tr : List Ev} {flCheck flPrunable : Bool}
    {evalv : Int} {n : ℕ} (hpv : ∀ k, env.pvEff k = none)
    (hnt : noPvTouch tr) :
    (∀ o, preCont env ply depth wasNull isPv lastMove lastCaptSq rd pos
        alpha beta move pvHead tr flCheck flPrunable evalv n = Sum.inl o →
        noPvTouch o.trace) ∧
    (∀ mid, preCont env ply depth wasNull isPv lastMove lastCaptSq rd pos
        alpha beta move pvHead tr flCheck flPrunable evalv n = Sum.inr mid →
        noPvTouch mid.trace) := by
  constructor
  all_goals intro x hx
  all_goals simp only [preCont] at hx
  all_goals repeat' split at hx
  all_goals first
    | (cases hx
       all_goals first
         | exact hnt
         | (exact (nullBlock_notouch hpv hnt).1 _ (by assumption))
         | (rcases razorStage_pv _ (by assumption) with ⟨h3, h4⟩
            rw [h3]
            exact (nullBlock_notouch hpv hnt).2 _ (by assumption))
         | (exact iidStage_notouch hpv ((nullBlock_notouch hpv hnt).2 _ (by assumption))))
    | cases hx

/-- Helper: with no buffer-sharing callee writes, the pre-loop stage
emits no pv-head writes. -/
theorem preStage_notouch {env : Env} {ply depth : Int} {wasNull isPv : Bool}
    {lastMove lastCaptSq rd : Int} {pos : List PosOp} {st : EntrySt}
    (hpv : ∀ k, env.pvEff k = none) (hnt : noPvTouch st.trace) :
    (∀ o, preStage env ply depth wasNull isPv lastMove lastCaptSq rd pos st = Sum.inl o →
        noPvTouch o.trace) ∧
    (∀ mid, preStage env ply depth wasNull isPv lastMove lastCaptSq rd pos st = Sum.inr mid →
        noPvTouch mid.trace) := by
  constructor
  all_goals intro x hx
  all_goals simp only [preStage] at hx
  all_goals repeat' split at hx
  all_goals first
    | (exact (preCont_notouch hpv hnt).1 x hx)
    | (exact (preCont_notouch hpv hnt).2 x hx)

/-- C2, counterexample: a root frame entered with the stale pv head 55
from the previous iteration whose only move fails low (score 5 against
alpha = 12) still commits an EXACT transposition store — with score
5 ≤ alpha, contradicting the claimed `alpha < score` bound for EXACT
stores. -/
theorem C2_exact_store_counterexample :
    Ev.ttStore 55 5 Bound.exact 2 0
        ∈ (Search envRootFailLow 10 0 12 30 2 false 0 (-1) 2 0 [] 55).trace ∧
    ¬((12 : Int) < 5) := by
  decide

/-- C2 (amended): every EXACT transposition store committed by a kernel
frame has its score strictly below beta; and if no buffer-sharing callee
wrote the frame's pv head and the frame's pv head starts cleared (always
the case away from the root, and at the root exactly when the incoming pv
buffer head is 0), the score is also strictly above alpha.  The original
claim's unconditional `alpha < score` fails at the root with a stale pv
head (see the counterexample). -/
theorem C2_exact_store_bounds (env : Env) (fuel : ℕ)
    (ply alpha beta depth : Int) (wasNull : Bool)
    (lastMove lastCaptSq rd : Int) (n : ℕ) (pos : List PosOp) (pv : Int)
    (m s d p : Int)
    (hmem : Ev.ttStore m s Bound.exact d p
      ∈ (Search env fuel ply alpha beta depth wasNull lastMove lastCaptSq rd n pos pv).trace) :
    s < beta ∧
    ((∀ k, env.pvEff k = none) → (ply = 0 → pv = 0) → alpha < s) := by
  by_cases hd : depth ≤ 0
  · simp [Search, hd] at hmem
  · simp only [Search, if_neg hd] at hmem
    rcases he : entryStage env ply alpha beta rd (decide (alpha ≠ beta - 1)) n pos pv with o | st
    · simp only [he] at hmem
      have h0 := entry_inl_nostore o he _ hmem
      simp [Ev.isStore] at h0
    · simp only [he] at hmem
      have hens := entry_nostore st he
      have hw := entry_window st he
      have hepv := entry_pv st he
      rcases hp : preStage env ply depth wasNull (decide (alpha ≠ beta - 1)) lastMove lastCaptSq rd pos st
        with o2 | mid
      · simp only [hp] at hmem
        have h0 := ((preStage_pv hens).1 o2 hp).1 _ hmem
        simp [Ev.isStore] at h0
      · simp only [hp] at hmem
        obtain ⟨hpa, hpb, hpns, hppv⟩ := (preStage_pv hens).2 mid hp
        constructor
        · -- s < beta, with the pv-head clause of the invariant trivialised
          have hinv : Inv (min mid.alpha (-INF - 1)) mid.beta mid.alpha (-INF) mid.pvHead :=
            ⟨min_le_left _ _, Or.inl rfl,
             fun _ => lt_of_le_of_lt (min_le_right _ _) (by omega)⟩
          have h1 := (loopStage_main
            ⟨env, ply, mid.beta, depth, decide (alpha ≠ beta - 1), mid.flCheck,
             mid.flPrunable, mid.didNull, mid.evalv, lastCaptSq, rd⟩
            (min mid.alpha (-INF - 1)) fuel
            ⟨mid.n, mid.trace, mid.pvHead, mid.alpha, -INF, false, 0, 0, pos⟩
            hinv hpns).1
          have h2 := h1 _ hmem m s d p rfl
          have h3 : s < mid.beta := h2.2
          omega
        · -- alpha < s when the pv head starts cleared and stays unwritten
          intro hpv hz
          have hent := entry_notouch st he
          have hmt := (preStage_notouch hpv hent).2 mid hp
          obtain ⟨hmphd, _⟩ := hppv hmt
          have hz0 : mid.pvHead = 0 := by
            rw [hmphd, hepv]
            by_cases h0 : ply = 0
            · simp [h0, hz h0]
            · simp [h0]
          have hinv : Inv alpha mid.beta mid.alpha (-INF) mid.pvHead :=
            ⟨by omega, Or.inl rfl, fun h0 => absurd hz0 h0⟩
          have h1 := (loopStage_main
            ⟨env, ply, mid.beta, depth, decide (alpha ≠ beta - 1), mid.flCheck,
             mid.flPrunable, mid.didNull, mid.evalv, lastCaptSq, rd⟩
            alpha fuel
            ⟨mid.n, mid.trace, mid.pvHead, mid.alpha, -INF, false, 0, 0, pos⟩
            hinv hpns).1
          exact (h1 _ hmem m s d p rfl).1

/-- C2, witness: a ply-1 frame on the window (-50, 50) whose single move
scores 10 commits the EXACT store (move 7, score 10), and the amended
bounds -50 < 10 < 50 hold. -/
theorem C2_exact_store_bounds_witness :
    Ev.ttStore 7 10 Bound.exact 1 1
        ∈ (Search envExactStore 10 1 (-50) 50 1 false 0 (-1) 2 0 [] 0).trace ∧
    (10 : Int) < 50 ∧ (-50 : Int) < 10 := by
  have hm : Ev.ttStore 7 10 Bound.exact 1 1
      ∈ (Search envExactStore 10 1 (-50) 50 1 false 0 (-1) 2 0 [] 0).trace := by
    decide
  have h := C2_exact_store_bounds envExactStore 10 1 (-50) 50 1 false 0 (-1) 2 0 [] 0
    7 10 1 1 hm
  exact ⟨hm, h.1, h.2 (fun k => rfl) (fun _ => rfl)⟩

/-- C8: when the main move loop finishes with no legal move played (the
frame exits at the no-legal-move return, `best` still `-INF`), the frame
returns `-MATE + ply` if the side to move is in check and the position's
draw score otherwise, and the frame performs no transposition store.  The
in-check flag and draw score are the frame's oracle reads, taken constant
here to state the returned value. -/
theorem C8_no_legal_terminal (env : Env) (fuel : ℕ)
    (ply alpha beta depth : Int) (wasNull : Bool)
    (lastMove lastCaptSq rd : Int) (n : ℕ) (pos : List PosOp) (pv : Int)
    (cck : Bool) (dsc : Int)
    (hck : ∀ k, env.inCheck k = cck) (hds : ∀ k, env.drawScore k = dsc)
    (htag : (Search env fuel ply alpha beta depth wasNull lastMove lastCaptSq rd n pos pv).tag
      = ExitTag.noLegal) :
    (Search env fuel ply alpha beta depth wasNull lastMove lastCaptSq rd n pos pv).res
        = some (if cck = true then -MATE + ply else dsc) ∧
    noStoreE (Search env fuel ply alpha beta depth wasNull lastMove lastCaptSq rd n pos pv).trace := by
  by_cases hd : depth ≤ 0
  · simp [Search, hd] at htag
  · simp only [Search, if_neg hd] at htag ⊢
    rcases he : entryStage env ply alpha beta rd (decide (alpha ≠ beta - 1)) n pos pv with o | st
    · simp only [he] at htag ⊢
      exact absurd htag (entry_not_noLegal o he)
    · simp only [he] at htag ⊢
      have hens := entry_nostore st he
      rcases hp : preStage env ply depth wasNull (decide (alpha ≠ beta - 1)) lastMove lastCaptSq rd pos st
        with o2 | mid
      · simp only [hp] at htag ⊢
        rcases preStage_tags o2 hp with h | h | h | h | h <;> rw [h] at htag <;>
          exact absurd htag (by decide)
      · simp only [hp] at htag ⊢
        have hpns := ((preStage_pv hens).2 mid hp).2.2.1
        have hinv : Inv (min mid.alpha (-INF - 1)) mid.beta mid.alpha (-INF) mid.pvHead :=
          ⟨min_le_left _ _, Or.inl rfl,
           fun _ => lt_of_le_of_lt (min_le_right _ _) (by omega)⟩
        obtain ⟨hnst, k, hk⟩ := (loopStage_main
          ⟨env, ply, mid.beta, depth, decide (alpha ≠ beta - 1), mid.flCheck,
           mid.flPrunable, mid.didNull, mid.evalv, lastCaptSq, rd⟩
          (min mid.alpha (-INF - 1)) fuel
          ⟨mid.n, mid.trace, mid.pvHead, mid.alpha, -INF, false, 0, 0, pos⟩
          hinv hpns).2.1 htag
        refine ⟨?_, hnst⟩
        rcases hk with ⟨h2, h3⟩ | ⟨h2, h3⟩
        · rw [hck k] at h2
          rw [h2]
          simpa using h3
        · rw [hck k] at h2
          rw [h2]
          rw [hds (k + 1)] at h3
          simpa using h3

/-- C8, witness: a ply-3 frame whose move generator yields no move at all
returns the draw score 7 (the side to move is not in check) and stores
nothing. -/
theorem C8_no_legal_terminal_witness :
    (Search envNoMoves 5 3 (-100) 100 1 false 0 (-1) 2 0 [] 0).res = some 7 ∧
    noStoreE (Search envNoMoves 5 3 (-100) 100 1 false 0 (-1) 2 0 [] 0).trace := by
  have h := C8_no_legal_terminal envNoMoves 5 3 (-100) 100 1 false 0 (-1) 2 0 [] 0
    false 7 (fun k => rfl) (fun k => rfl) (by decide)
  exact ⟨by simpa using h.1, h.2⟩

/-- C9, counterexample: at the root of a depth-7 frame with no hash move,
internal iterative deepening hands the frame's own pv buffer to a
sub-search which rewrites its head to 99; the frame's single real move
then fails low, yet the buffer head at exit is 99, not the incoming 55 —
so the root pv buffer is not left untouched until some move raises
alpha. -/
theorem C9_root_pv_counterexample :
    (Search envIidWrite 10 0 12 30 7 false 0 (-1) 2 0 [] 55).pvHead = 99 ∧
    (99 : Int) ≠ 55 := by
  decide

/-- C9 (amended): if nothing in the frame's trace wrote the pv-buffer head
(no `BuildPv` by the frame and no write by a buffer-sharing callee — IID
and the null-move verification can perform such writes), then a root frame
leaves the incoming pv head untouched, and a frame at `ply > 0` that got
past the entry abort check leaves the head cleared to 0. -/
theorem C9_root_pv (env : Env) (fuel : ℕ) (ply alpha beta depth : Int)
    (wasNull : Bool) (lastMove lastCaptSq rd : Int) (n : ℕ)
    (pos : List PosOp) (pv : Int) :
    (ply = 0 →
      noPvTouch (Search env fuel ply alpha beta depth wasNull lastMove lastCaptSq rd n pos pv).trace →
      (Search env fuel ply alpha beta depth wasNull lastMove lastCaptSq rd n pos pv).pvHead = pv) ∧
    (ply ≠ 0 → 0 < depth → ¬(env.abort n = true ∧ rd > 1) →
      noPvTouch (Search env fuel ply alpha beta depth wasNull lastMove lastCaptSq rd n pos pv).trace →
      (Search env fuel ply alpha beta depth wasNull lastMove lastCaptSq rd n pos pv).pvHead = 0) := by
  constructor
  · intro hply hnp
    by_cases hd : depth ≤ 0
    · simp [Search, hd]
    · simp only [Search, if_neg hd] at hnp ⊢
      rcases he : entryStage env ply alpha beta rd (decide (alpha ≠ beta - 1)) n pos pv with o | st
      · simp only [he] at hnp ⊢
        exact entry_inl_pv_root hply o he
      · simp only [he] at hnp ⊢
        have hens := entry_nostore st he
        have hepv := entry_pv st he
        rcases hp : preStage env ply depth wasNull (decide (alpha ≠ beta - 1)) lastMove lastCaptSq rd pos st
          with o2 | mid
        · simp only [hp] at hnp ⊢
          obtain ⟨h1, h2⟩ := ((preStage_pv hens).1 o2 hp).2 hnp
          rw [h1, hepv]
          simp [hply]
        · simp only [hp] at hnp ⊢
          have hpns := ((preStage_pv hens).2 mid hp).2.2.1
          have hinv : Inv (min mid.alpha (-INF - 1)) mid.beta mid.alpha (-INF) mid.pvHead :=
            ⟨min_le_left _ _, Or.inl rfl,
             fun _ => lt_of_le_of_lt (min_le_right _ _) (by omega)⟩
          obtain ⟨e1, e2⟩ := (loopStage_main
            ⟨env, ply, mid.beta, depth, decide (alpha ≠ beta - 1), mid.flCheck,
             mid.flPrunable, mid.didNull, mid.evalv, lastCaptSq, rd⟩
            (min mid.alpha (-INF - 1)) fuel
            ⟨mid.n, mid.trace, mid.pvHead, mid.alpha, -INF, false, 0, 0, pos⟩
            hinv hpns).2.2 hnp
          obtain ⟨e3, e4⟩ := ((preStage_pv hens).2 mid hp).2.2.2 e2
          rw [e1, e3, hepv]
          simp [hply]
  · intro hply hdp hab hnp
    have hd : ¬ depth ≤ 0 := by omega
    simp only [Search, if_neg hd] at hnp ⊢
    rcases he : entryStage env ply alpha beta rd (decide (alpha ≠ beta - 1)) n pos pv with o | st
    · simp only [he] at hnp ⊢
      exact entry_inl_pv_deep hply hab o he
    · simp only [he] at hnp ⊢
      have hens := entry_nostore st he
      have hepv := entry_pv st he
      rcases hp : preStage env ply depth wasNull (decide (alpha ≠ beta - 1)) lastMove lastCaptSq rd pos st
        with o2 | mid
      · simp only [hp] at hnp ⊢
        obtain ⟨h1, h2⟩ := ((preStage_pv hens).1 o2 hp).2 hnp
        rw [h1, hepv]
        simp [hply]
      · simp only [hp] at hnp ⊢
        have hpns := ((preStage_pv hens).2 mid hp).2.2.1
        have hinv : Inv (min mid.alpha (-INF - 1)) mid.beta mid.alpha (-INF) mid.pvHead :=
          ⟨min_le_left _ _, Or.inl rfl,
           fun _ => lt_of_le_of_lt (min_le_right _ _) (by omega)⟩
        obtain ⟨e1, e2⟩ := (loopStage_main
          ⟨env, ply, mid.beta, depth, decide (alpha ≠ beta - 1), mid.flCheck,
           mid.flPrunable, mid.didNull, mid.evalv, lastCaptSq, rd⟩
          (min mid.alpha (-INF - 1)) fuel
          ⟨mid.n, mid.trace, mid.pvHead, mid.alpha, -INF, false, 0, 0, pos⟩
          hinv hpns).2.2 hnp
        obtain ⟨e3, e4⟩ := ((preStage_pv hens).2 mid hp).2.2.2 e2
        rw [e1, e3, hepv]
        simp [hply]

/-- C9, witness: a root frame with incoming pv head 55 whose single move
fails low (nothing writes the head) exits with the head still 55. -/
theorem C9_root_pv_witness :
    noPvTouch (Search envRootFailLow9 10 0 12 30 2 false 0 (-1) 2 0 [] 55).trace ∧
    (Search envRootFailLow9 10 0 12 30 2 false 0 (-1) 2 0 [] 55).pvHead = 55 := by
  have hnt : noPvTouch (Search envRootFailLow9 10 0 12 30 2 false 0 (-1) 2 0 [] 55).trace := by
    unfold noPvTouch
    decide
  have h := (C9_root_pv envRootFailLow9 10 0 12 30 2 false 0 (-1) 2 0 [] 55).1
    rfl hnt
  exact ⟨hnt, h⟩

end OpenTal
